import Mathlib

/-!
Shallow embedding of `src/Translator.py`: a small constant-definition
language compiled to a flat key/value text format.  The pipeline is
lex → parse → evaluate → serialize, with a single top-level error catch.

Text is modelled as `List Char` (Python `str`); Python `int` is `Int`
(arbitrary precision); Python exceptions are `Except Err`.
-/

namespace Translator

/-- Python strings are modelled as lists of characters. -/
abbrev Str := List Char

/-- Token kinds, exactly the tags of `TOKEN_REGEX` in the source. -/
inductive TokType where
  | COMMENT | NUMBER | SET | LIST | POW | ABS | IDENT
  | CARET | LBRACE | RBRACE | LPAREN | RPAREN
  | PLUS | MINUS | COMMA | EQUAL | SEMICOLON | WS
deriving DecidableEq

/-- The textual name of a token kind, as interpolated into Python error
messages (`f"Expected {type_}, got ..."`). -/
def TokType.name : TokType → Str
  | .COMMENT => "COMMENT".data
  | .NUMBER => "NUMBER".data
  | .SET => "SET".data
  | .LIST => "LIST".data
  | .POW => "POW".data
  | .ABS => "ABS".data
  | .IDENT => "IDENT".data
  | .CARET => "CARET".data
  | .LBRACE => "LBRACE".data
  | .RBRACE => "RBRACE".data
  | .LPAREN => "LPAREN".data
  | .RPAREN => "RPAREN".data
  | .PLUS => "PLUS".data
  | .MINUS => "MINUS".data
  | .COMMA => "COMMA".data
  | .EQUAL => "EQUAL".data
  | .SEMICOLON => "SEMICOLON".data
  | .WS => "WS".data

/-- `class Token`: a (kind, literal text) pair. -/
structure Token where
  type : TokType
  value : Str
deriving DecidableEq

/-- The character for the decimal digit `d`. -/
def digitChar (d : Nat) : Char := Char.ofNat (48 + d)

/-- Fuel-driven decimal digit emission; the fuel `n + 1` supplied by
`natToStr` is always sufficient since the value shrinks by a factor of
ten per step. -/
def natToStrAux : Nat → Nat → Str
  | 0, _ => []
  | fuel + 1, n =>
      if n < 10 then [digitChar n]
      else natToStrAux fuel (n / 10) ++ [digitChar (n % 10)]

/-- Decimal rendering of a natural number, matching Python `str(n)` for
nonnegative `n` (most significant digit first, no leading zeros,
`"0"` for zero). -/
def natToStr (n : Nat) : Str := natToStrAux (n + 1) n

/-- Decimal rendering of an integer, matching Python `str(i)`. -/
def intToStr (i : Int) : Str :=
  if i < 0 then '-' :: natToStr i.natAbs else natToStr i.natAbs

/-- The failures any pipeline stage can raise (Python exceptions).  Each
constructor records the data interpolated into the exception message; see
`Err.render` for the exact `str(e)` text.

`noFuel` is an artifact of the fuel-based embedding of the recursive-descent
parser; it is proved unreachable for the fuel the pipeline supplies
(`parse_noFuel_unreachable`). -/
inductive Err where
  | lexError (c : Char) (pos : Nat)
  | syntaxExpected (expected : TokType) (got : Option TokType)
  | syntaxUnexpected (got : TokType)
  | noneTypeAttr
  | semanticUnknown (name : Str)
  | concatTypeError (rty : Str)
  | unsupportedOp (op : Str) (lty rty : Str)
  | absTypeError (ty : Str)
  | zeroPowNegative
  | noFuel
deriving DecidableEq

/-- `str(e)` of each exception, as the Python runtime produces it.
The lexer/parser/evaluator raise `Exception(f"...")`, whose `str` is the
message; `TypeError`/`ZeroDivisionError`/`AttributeError` raised by the
interpreter itself render their standard CPython messages. -/
def Err.render : Err → Str
  | .lexError c pos =>
      "LexError: Unexpected character \x27".data ++ [c] ++
        "\x27 at position ".data ++ natToStr pos
  | .syntaxExpected expected got =>
      "SyntaxError: Expected ".data ++ expected.name ++ ", got ".data ++
        (match got with
         | some t => t.name
         | none => "EOF".data)
  | .syntaxUnexpected got =>
      "SyntaxError: Unexpected token ".data ++ got.name
  | .noneTypeAttr =>
      "\x27NoneType\x27 object has no attribute \x27type\x27".data
  | .semanticUnknown name =>
      "SemanticError: Unknown constant ".data ++ name
  | .concatTypeError rty =>
      "can only concatenate list (not \x22".data ++ rty ++
        "\x22) to list".data
  | .unsupportedOp op lty rty =>
      "unsupported operand type(s) for ".data ++ op ++ ": \x27".data ++
        lty ++ "\x27 and \x27".data ++ rty ++ "\x27".data
  | .absTypeError ty =>
      "bad operand type for abs(): \x27".data ++ ty ++ "\x27".data
  | .zeroPowNegative =>
      "0.0 cannot be raised to a negative power".data
  | .noFuel => "NoFuel".data

/-! ## Lexer

`TOKEN_REGEX` is an ordered list of patterns; at each position the first
matching pattern wins.  Each regex in the source is one of three simple
shapes, modelled by the matchers below, which return the length of the
matched text (Python `match.end() - pos`). -/

/-- `[ \t\n]` -/
def isWsC (c : Char) : Bool := c = ' ' || c = '\t' || c = '\x0a'

/-- `\d` (restricted to ASCII digits; Python `\d` also accepts other
Unicode decimal digits, which no part of this development depends on). -/
def isDigitC (c : Char) : Bool := '0' ≤ c && c ≤ '9'

/-- `[A-Z]` -/
def isUpperC (c : Char) : Bool := 'A' ≤ c && c ≤ 'Z'

/-- A greedy one-or-more character-class regex (`\d+`, `[A-Z]+`,
`[ \t\n]+`): matches the longest nonempty run satisfying `p`. -/
def runMatch (p : Char → Bool) (cs : Str) : Option Nat :=
  if (cs.takeWhile p).length = 0 then none else some (cs.takeWhile p).length

/-- A fixed literal regex (`set`, `list`, `pow`, `abs`, and the
single-character punctuation patterns): matches iff it is a prefix of the
remaining text. -/
def litMatch (lit : Str) (cs : Str) : Option Nat :=
  if cs.take lit.length = lit then some lit.length else none

/-- `\*.*` : an asterisk, then greedily every character up to but
excluding the next line break (`.` does not match `\n`). -/
def commentMatch : Str → Option Nat
  | '*' :: r => some (1 + (r.takeWhile (fun c => c ≠ '\x0a')).length)
  | _ => none

/-- `TOKEN_REGEX`: the fixed, ordered pattern list.  Priority is by
declaration order — the first pattern that matches at the current
position wins, exactly as the `for tok_type, pattern in TOKEN_REGEX`
loop `break`s on the first hit. -/
def TOKEN_REGEX : List (TokType × (Str → Option Nat)) :=
  [ (.COMMENT, commentMatch),
    (.NUMBER, runMatch isDigitC),
    (.SET, litMatch "set".data),
    (.LIST, litMatch "list".data),
    (.POW, litMatch "pow".data),
    (.ABS, litMatch "abs".data),
    (.IDENT, runMatch isUpperC),
    (.CARET, litMatch "^".data),
    (.LBRACE, litMatch "\x7b".data),
    (.RBRACE, litMatch "\x7d".data),
    (.LPAREN, litMatch "(".data),
    (.RPAREN, litMatch ")".data),
    (.PLUS, litMatch "+".data),
    (.MINUS, litMatch "-".data),
    (.COMMA, litMatch ",".data),
    (.EQUAL, litMatch "=".data),
    (.SEMICOLON, litMatch ";".data),
    (.WS, runMatch isWsC) ]

/-- Ordered first-match over a pattern list. -/
def firstMatchList :
    List (TokType × (Str → Option Nat)) → Str → Option (TokType × Nat)
  | [], _ => none
  | (t, m) :: ps, cs =>
      match m cs with
      | some n => some (t, n)
      | none => firstMatchList ps cs

/-- The ordered first-match over `TOKEN_REGEX`, returning the winning
token kind and matched length. -/
def firstMatch (cs : Str) : Option (TokType × Nat) :=
  firstMatchList TOKEN_REGEX cs

theorem runMatch_pos {p : Char → Bool} {cs : Str} {n : Nat}
    (h : runMatch p cs = some n) : 1 ≤ n := by
  unfold runMatch at h
  split at h
  · exact absurd h (by simp)
  · rename_i hne
    cases h
    omega

theorem litMatch_pos {lit cs : Str} {n : Nat} (hlit : lit ≠ [])
    (h : litMatch lit cs = some n) : 1 ≤ n := by
  unfold litMatch at h
  split at h
  · cases h
    cases lit with
    | nil => exact absurd rfl hlit
    | cons a l => simp
  · exact absurd h (by simp)

theorem commentMatch_pos {cs : Str} {n : Nat}
    (h : commentMatch cs = some n) : 1 ≤ n := by
  unfold commentMatch at h
  split at h
  · cases h; omega
  · exact absurd h (by simp)

/-- A successful first match comes from one of the listed patterns. -/
theorem firstMatchList_some {ps : List (TokType × (Str → Option Nat))}
    {cs : Str} {t : TokType} {n : Nat}
    (h : firstMatchList ps cs = some (t, n)) :
    ∃ m, (t, m) ∈ ps ∧ m cs = some n := by
  induction ps with
  | nil => exact absurd h (by simp [firstMatchList])
  | cons p ps ih =>
      obtain ⟨t', m'⟩ := p
      simp only [firstMatchList] at h
      cases hm : m' cs with
      | some k =>
          rw [hm] at h
          simp only [Option.some.injEq, Prod.mk.injEq] at h
          obtain ⟨rfl, rfl⟩ := h
          exact ⟨m', List.mem_cons_self .., hm⟩
      | none =>
          rw [hm] at h
          obtain ⟨m, hmem, hms⟩ := ih h
          exact ⟨m, List.mem_cons_of_mem _ hmem, hms⟩

/-- A failed first match means every listed pattern failed. -/
theorem firstMatchList_none {ps : List (TokType × (Str → Option Nat))}
    {cs : Str} (h : firstMatchList ps cs = none) :
    ∀ p ∈ ps, p.2 cs = none := by
  induction ps with
  | nil => simp
  | cons p ps ih =>
      obtain ⟨t', m'⟩ := p
      simp only [firstMatchList] at h
      cases hm : m' cs with
      | some k => rw [hm] at h; exact absurd h (by simp)
      | none =>
          rw [hm] at h
          intro q hq
          rcases List.mem_cons.mp hq with rfl | hq
          · exact hm
          · exact ih h q hq

/-- Every pattern of `TOKEN_REGEX` matches at least one character, so the
scan position strictly advances. -/
theorem firstMatch_pos {cs : Str} {r : TokType × Nat}
    (h : firstMatch cs = some r) : 1 ≤ r.2 := by
  obtain ⟨t, n⟩ := r
  obtain ⟨m, hmem, hms⟩ := firstMatchList_some h
  fin_cases hmem
  · exact commentMatch_pos hms
  · exact runMatch_pos hms
  · exact litMatch_pos (by simp) hms
  · exact litMatch_pos (by simp) hms
  · exact litMatch_pos (by simp) hms
  · exact litMatch_pos (by simp) hms
  · exact runMatch_pos hms
  · exact litMatch_pos (by simp) hms
  · exact litMatch_pos (by simp) hms
  · exact litMatch_pos (by simp) hms
  · exact litMatch_pos (by simp) hms
  · exact litMatch_pos (by simp) hms
  · exact litMatch_pos (by simp) hms
  · exact litMatch_pos (by simp) hms
  · exact litMatch_pos (by simp) hms
  · exact litMatch_pos (by simp) hms
  · exact litMatch_pos (by simp) hms
  · exact runMatch_pos hms

/-- The scanning loop of `lex`: at each position take the first matching
pattern, append the token unless it is whitespace or a comment, advance by
the matched length; fail if nothing matches.  The fuel parameter is an
artifact of the embedding: every match consumes at least one character
(`firstMatch_pos`), so the fuel `lex` supplies never runs out
(`lexAux_suff`). -/
def lexAux : Nat → Str → Nat → Except Err (List Token)
  | 0, _, _ => .error .noFuel
  | _ + 1, [], _ => .ok []
  | fuel + 1, c :: rest, pos =>
      match firstMatch (c :: rest) with
      | some (t, n) =>
          match lexAux fuel ((c :: rest).drop n) (pos + n) with
          | .ok toks =>
              .ok (if t = .WS ∨ t = .COMMENT then toks
                   else ⟨t, (c :: rest).take n⟩ :: toks)
          | .error e => .error e
      | none => .error (.lexError c pos)

/-- `lex(text)`. -/
def lex (text : Str) : Except Err (List Token) :=
  lexAux (text.length + 1) text 0

/-! ## Abstract syntax

The source represents AST nodes as tagged tuples; here they are a closed
sum per grammar rule.  Expression tags in the source are
`'num' | 'var' | 'PLUS' | 'MINUS' | 'pow' | 'abs'`. -/

inductive ExprNode where
  | num (n : Int)
  | var (name : Str)
  | plus (a b : ExprNode)
  | minus (a b : ExprNode)
  | pow (a b : ExprNode)
  | abs (a : ExprNode)
deriving DecidableEq

/-- Value tags in the source are `'number' | 'list' | 'const'`. -/
inductive ValueNode where
  | number (n : Int)
  | list (items : List ValueNode)
  | const (e : ExprNode)

/-- A statement tuple `('set', name, val)`. -/
structure Stmt where
  name : Str
  val : ValueNode

/-- Python `int(s)` on the text matched by `\d+` (a nonempty digit run,
possibly with leading zeros). -/
def strToInt (s : Str) : Int :=
  (s.foldl (fun n c => n * 10 + (c.toNat - 48)) 0 : Nat)

/-! ## Parser

`class Parser` holds the token list and a cursor; here each method takes
the remaining tokens and returns its result together with the tokens left
(`self.pos` advancing = returning a suffix).  The mutual recursion is
driven by a fuel parameter decremented at every call; `Err.noFuel` is the
out-of-fuel artifact, proved unreachable for the fuel `parse` supplies. -/

/-- `Parser.peek`: the token under the cursor, or `None`. -/
def peekT (toks : List Token) : Option Token := toks.head?

/-- `Parser.eat`: consume a token of the expected kind or raise
`SyntaxError: Expected ..., got ...` (with `EOF` when exhausted). -/
def eat (type_ : TokType) (toks : List Token) :
    Except Err (Token × List Token) :=
  match toks with
  | [] => .error (.syntaxExpected type_ none)
  | tok :: rest =>
      if tok.type = type_ then .ok (tok, rest)
      else .error (.syntaxExpected type_ (some tok.type))

/-- The binary node `(op, node, right)` built in `parse_expr`;
`op` is the eaten token's kind, `PLUS` or `MINUS`. -/
def mkBin (op : TokType) (a b : ExprNode) : ExprNode :=
  if op = .PLUS then .plus a b else .minus a b

mutual

/-- `Parser.parse_value`.  NB the source reads `tok.type` before checking
`tok` for `None`, so at end of input this raises `AttributeError`
(`'NoneType' object has no attribute 'type'`), not a `SyntaxError`. -/
def parse_value : Nat → List Token → Except Err (ValueNode × List Token)
  | 0, _ => .error .noFuel
  | fuel + 1, toks =>
    match peekT toks with
    | none => .error .noneTypeAttr
    | some tok =>
      if tok.type = .NUMBER then
        match eat .NUMBER toks with
        | .ok (t, rest) => .ok (.number (strToInt t.value), rest)
        | .error e => .error e
      else if tok.type = .LPAREN then parse_list fuel toks
      else if tok.type = .CARET then parse_const_expr fuel toks
      else .error (.syntaxUnexpected tok.type)

/-- `Parser.parse_list`. -/
def parse_list : Nat → List Token → Except Err (ValueNode × List Token)
  | 0, _ => .error .noFuel
  | fuel + 1, toks =>
    match eat .LPAREN toks with
    | .error e => .error e
    | .ok (_, r1) =>
      match eat .LIST r1 with
      | .error e => .error e
      | .ok (_, r2) =>
        match parse_list_items fuel r2 with
        | .error e => .error e
        | .ok (items, r3) =>
          match eat .RPAREN r3 with
          | .error e => .error e
          | .ok (_, r4) => .ok (.list items, r4)

/-- The `while self.peek() and self.peek().type != 'RPAREN'` item loop of
`parse_list`. -/
def parse_list_items :
    Nat → List Token → Except Err (List ValueNode × List Token)
  | 0, _ => .error .noFuel
  | fuel + 1, toks =>
    match peekT toks with
    | none => .ok ([], toks)
    | some tok =>
      if tok.type = .RPAREN then .ok ([], toks)
      else
        match parse_value fuel toks with
        | .error e => .error e
        | .ok (v, r) =>
          match parse_list_items fuel r with
          | .error e => .error e
          | .ok (vs, r2) => .ok (v :: vs, r2)

/-- `Parser.parse_const_expr`. -/
def parse_const_expr :
    Nat → List Token → Except Err (ValueNode × List Token)
  | 0, _ => .error .noFuel
  | fuel + 1, toks =>
    match eat .CARET toks with
    | .error e => .error e
    | .ok (_, r1) =>
      match eat .LBRACE r1 with
      | .error e => .error e
      | .ok (_, r2) =>
        match parse_expr fuel r2 with
        | .error e => .error e
        | .ok (expr, r3) =>
          match eat .RBRACE r3 with
          | .error e => .error e
          | .ok (_, r4) => .ok (.const expr, r4)

/-- `Parser.parse_expr`: one `parse_term`, then the left-associative
`+`/`-` loop. -/
def parse_expr : Nat → List Token → Except Err (ExprNode × List Token)
  | 0, _ => .error .noFuel
  | fuel + 1, toks =>
    match parse_term fuel toks with
    | .error e => .error e
    | .ok (node, r) => parse_expr_loop fuel node r

/-- The `while self.peek() and self.peek().type in ('PLUS','MINUS')` loop
of `parse_expr`. -/
def parse_expr_loop :
    Nat → ExprNode → List Token → Except Err (ExprNode × List Token)
  | 0, _, _ => .error .noFuel
  | fuel + 1, node, toks =>
    match peekT toks with
    | none => .ok (node, toks)
    | some tok =>
      if tok.type = .PLUS ∨ tok.type = .MINUS then
        match eat tok.type toks with
        | .error e => .error e
        | .ok (op, r1) =>
          match parse_term fuel r1 with
          | .error e => .error e
          | .ok (right, r2) => parse_expr_loop fuel (mkBin op.type node right) r2
      else .ok (node, toks)

/-- `Parser.parse_term`.  A leading `-` desugars to
`('MINUS', ('num', 0), term)`; like `parse_value`, reading `tok.type` at
end of input raises `AttributeError`. -/
def parse_term : Nat → List Token → Except Err (ExprNode × List Token)
  | 0, _ => .error .noFuel
  | fuel + 1, toks =>
    match peekT toks with
    | none => .error .noneTypeAttr
    | some tok =>
      if tok.type = .MINUS then
        match eat .MINUS toks with
        | .error e => .error e
        | .ok (_, r) =>
          match parse_term fuel r with
          | .error e => .error e
          | .ok (term, r2) => .ok (.minus (.num 0) term, r2)
      else if tok.type = .NUMBER then
        match eat .NUMBER toks with
        | .error e => .error e
        | .ok (t, r) => .ok (.num (strToInt t.value), r)
      else if tok.type = .IDENT then
        match eat .IDENT toks with
        | .error e => .error e
        | .ok (_, r) => .ok (.var tok.value, r)
      else if tok.type = .POW then
        match eat .POW toks with
        | .error e => .error e
        | .ok (_, r1) =>
          match eat .LPAREN r1 with
          | .error e => .error e
          | .ok (_, r2) =>
            match parse_expr fuel r2 with
            | .error e => .error e
            | .ok (a, r3) =>
              match eat .COMMA r3 with
              | .error e => .error e
              | .ok (_, r4) =>
                match parse_expr fuel r4 with
                | .error e => .error e
                | .ok (b, r5) =>
                  match eat .RPAREN r5 with
                  | .error e => .error e
                  | .ok (_, r6) => .ok (.pow a b, r6)
      else if tok.type = .ABS then
        match eat .ABS toks with
        | .error e => .error e
        | .ok (_, r1) =>
          match eat .LPAREN r1 with
          | .error e => .error e
          | .ok (_, r2) =>
            match parse_expr fuel r2 with
            | .error e => .error e
            | .ok (a, r3) =>
              match eat .RPAREN r3 with
              | .error e => .error e
              | .ok (_, r4) => .ok (.abs a, r4)
      else .error (.syntaxUnexpected tok.type)

/-- `Parser.parse_stmt`. -/
def parse_stmt : Nat → List Token → Except Err (Stmt × List Token)
  | 0, _ => .error .noFuel
  | fuel + 1, toks =>
    match eat .SET toks with
    | .error e => .error e
    | .ok (_, r1) =>
      match eat .IDENT r1 with
      | .error e => .error e
      | .ok (nameTok, r2) =>
        match eat .EQUAL r2 with
        | .error e => .error e
        | .ok (_, r3) =>
          match parse_value fuel r3 with
          | .error e => .error e
          | .ok (v, r4) =>
            match eat .SEMICOLON r4 with
            | .error e => .error e
            | .ok (_, r5) => .ok (⟨nameTok.value, v⟩, r5)

/-- `Parser.parse`: the `while self.peek()` statement loop. -/
def parse_program : Nat → List Token → Except Err (List Stmt)
  | 0, _ => .error .noFuel
  | fuel + 1, toks =>
    match peekT toks with
    | none => .ok []
    | some _ =>
      match parse_stmt fuel toks with
      | .error e => .error e
      | .ok (s, r) =>
        match parse_program fuel r with
        | .error e => .error e
        | .ok ss => .ok (s :: ss)

end

/-- `Parser(tokens).parse()`: the fuel `2·|toks| + 2` is enough for the
whole recursion (`parse_program_suff`). -/
def parse (toks : List Token) : Except Err (List Stmt) :=
  parse_program (2 * toks.length + 2) toks

/-- Entry point for parsing a single expression from a token sequence,
used to state claims about `parse_expr`; the fuel is again sufficient. -/
def parseExprTop (toks : List Token) :
    Except Err (ExprNode × List Token) :=
  parse_expr (2 * toks.length + 4) toks

/-! ## Evaluator

Resolved values are Python objects: `int`, `list` (heterogeneous, so
nested lists are permitted), and — reachable only through `**` with a
negative exponent — `float`.  The model carries the exact rational for a
float where CPython stores the nearest binary64; the two agree on every
value any theorem below evaluates, and no claim depends on float
rounding. -/

inductive Value where
  | int (n : Int)
  | list (vs : List Value)
  | float (q : ℚ)

instance : Inhabited Value := ⟨.int 0⟩

/-- The Python type name of a value, as interpolated into `TypeError`
messages. -/
def Value.typeName : Value → Str
  | .int _ => "int".data
  | .list _ => "list".data
  | .float _ => "float".data

/-- The constant table: Python's insertion-ordered `dict`, modelled as an
association list.  -/
abbrev Dict := List (Str × Value)

/-- `name in consts` / `consts[name]`. -/
def dictGet (name : Str) : Dict → Option Value
  | [] => none
  | (k, v) :: rest => if k = name then some v else dictGet name rest

/-- `consts[name] = v`: overwrite in place if the key exists (keeping its
insertion position, as Python dicts do), else append. -/
def dictSet (name : Str) (v : Value) : Dict → Dict
  | [] => [(name, v)]
  | (k, w) :: rest =>
      if k = name then (k, v) :: rest else (k, w) :: dictSet name v rest

/-- Python `a + b` on resolved values: integer/float addition, list
concatenation; mixing a list with a non-list raises `TypeError`. -/
def addVal : Value → Value → Except Err Value
  | .int a, .int b => .ok (.int (a + b))
  | .int a, .float q => .ok (.float (a + q))
  | .float p, .int b => .ok (.float (p + b))
  | .float p, .float q => .ok (.float (p + q))
  | .list xs, .list ys => .ok (.list (xs ++ ys))
  | .list _, r => .error (.concatTypeError r.typeName)
  | l, r => .error (.unsupportedOp "+".data l.typeName r.typeName)

/-- Python `a - b`: defined on numbers only. -/
def subVal : Value → Value → Except Err Value
  | .int a, .int b => .ok (.int (a - b))
  | .int a, .float q => .ok (.float (a - q))
  | .float p, .int b => .ok (.float (p - b))
  | .float p, .float q => .ok (.float (p - q))
  | l, r => .error (.unsupportedOp "-".data l.typeName r.typeName)

/-- Python `p ** e` for a rational base and integer exponent: an exact
value for `e ≥ 0`; for `e < 0` a zero base raises `ZeroDivisionError` and
otherwise the result is a float (exact rational here, nearest binary64 in
CPython). Note an `int ** int` with negative exponent also lands in the
float branch — CPython switches to float pow there. -/
def ratPowInt (p : ℚ) (isInt : Bool) (e : Int) : Except Err Value :=
  if 0 ≤ e then
    if isInt then
      .ok (.int (p.num ^ e.toNat))
    else .ok (.float (p ^ e.toNat))
  else if p = 0 then .error .zeroPowNegative
  else .ok (.float (p ^ e))

/-- Python `a ** b` on resolved values.  A float exponent with nonzero
fractional part yields an inexact float (or a complex number for a
negative base); its magnitude is untracked by this model (payload `0`) —
it is reachable only through chained negative-exponent `pow`s and no
verified claim evaluates it. -/
def powVal : Value → Value → Except Err Value
  | .int a, .int b => ratPowInt (a : ℚ) true b
  | .int a, .float q =>
      if q.den = 1 then ratPowInt (a : ℚ) false q.num else .ok (.float 0)
  | .float p, .int b => ratPowInt p false b
  | .float p, .float q =>
      if q.den = 1 then ratPowInt p false q.num else .ok (.float 0)
  | l, r => .error (.unsupportedOp "** or pow()".data l.typeName r.typeName)

/-- Python `abs(a)`: numbers only. -/
def absVal : Value → Except Err Value
  | .int a => .ok (.int |a|)
  | .float p => .ok (.float |p|)
  | .list _ => .error (.absTypeError "list".data)

/-- `eval_expr(node, consts)`.  The closed `ExprNode` type makes the
source's final `Unexpected expr node` branch unrepresentable. -/
def eval_expr : ExprNode → Dict → Except Err Value
  | .num n, _ => .ok (.int n)
  | .var name, consts =>
      match dictGet name consts with
      | none => .error (.semanticUnknown name)
      | some v => .ok v
  | .plus a b, consts =>
      match eval_expr a consts with
      | .error e => .error e
      | .ok va =>
        match eval_expr b consts with
        | .error e => .error e
        | .ok vb => addVal va vb
  | .minus a b, consts =>
      match eval_expr a consts with
      | .error e => .error e
      | .ok va =>
        match eval_expr b consts with
        | .error e => .error e
        | .ok vb => subVal va vb
  | .pow a b, consts =>
      match eval_expr a consts with
      | .error e => .error e
      | .ok va =>
        match eval_expr b consts with
        | .error e => .error e
        | .ok vb => powVal va vb
  | .abs a, consts =>
      match eval_expr a consts with
      | .error e => .error e
      | .ok va => absVal va

mutual

/-- `eval_value(v, consts)`.  The closed `ValueNode` type makes the
source's `Invalid value type` branch unrepresentable. -/
def eval_value : ValueNode → Dict → Except Err Value
  | .number n, _ => .ok (.int n)
  | .list items, consts =>
      match eval_items items consts with
      | .error e => .error e
      | .ok vs => .ok (.list vs)
  | .const e, consts => eval_expr e consts

/-- The `[eval_value(x, consts) for x in v[1]]` comprehension. -/
def eval_items : List ValueNode → Dict → Except Err (List Value)
  | [], _ => .ok []
  | v :: rest, consts =>
      match eval_value v consts with
      | .error e => .error e
      | .ok x =>
        match eval_items rest consts with
        | .error e => .error e
        | .ok xs => .ok (x :: xs)

end

/-- The statement loop of `main`:
`for st in stmts: consts[name] = eval_value(val, consts)`. -/
def run_stmts : List Stmt → Dict → Except Err Dict
  | [], consts => .ok consts
  | st :: rest, consts =>
      match eval_value st.val consts with
      | .error e => .error e
      | .ok v => run_stmts rest (dictSet st.name v consts)

/-! ## Serializer -/

/-- Python `str.lower()` (ASCII range; keys are always `[A-Z]+` here). -/
def lowerC (c : Char) : Char :=
  if 'A' ≤ c && c ≤ 'Z' then Char.ofNat (c.toNat + 32) else c

def pyLower (s : Str) : Str := s.map lowerC

mutual

/-- Python `str(v)` / `repr(v)` of a resolved value: base-10 for an
integer, `[x, y, z]` with `, ` separators recursively for a list.  The
float branch models `repr` of an integral float faithfully (`"4.0"`) and
leaves the non-integral shortest-repr algorithm untracked (no verified
claim renders a non-integral float). -/
def pyStr : Value → Str
  | .int n => intToStr n
  | .list vs => '[' :: pyStrList vs ++ [']']
  | .float q =>
      if q.den = 1 then intToStr q.num ++ ".0".data
      else intToStr q.num ++ "/".data ++ natToStr q.den

/-- `", ".join(repr(x) for x in vs)`. -/
def pyStrList : List Value → Str
  | [] => []
  | [v] => pyStr v
  | v :: rest => pyStr v ++ ", ".data ++ pyStrList rest

end

/-- `"\n".join(lines)`. -/
def joinNL : List Str → Str
  | [] => []
  | [l] => l
  | l :: rest => l ++ '\x0a' :: joinNL rest

/-- One output line `f"{key} = {v}"` with `key = k.lower()` (the source's
`isinstance` branches both produce this same f-string). -/
def entryLine (kv : Str × Value) : Str :=
  pyLower kv.1 ++ " = ".data ++ pyStr kv.2

/-- `to_toml(consts)`. -/
def to_toml (consts : Dict) : Str := joinNL (consts.map entryLine)

/-! ## Top-level driver -/

/-- The `try` body of `main` after reading the input text: lex, parse,
evaluate statements into an initially empty table, serialize. -/
def pipeline (text : Str) : Except Err Str :=
  match lex text with
  | .error e => .error e
  | .ok tokens =>
    match parse tokens with
    | .error e => .error e
    | .ok stmts =>
      match run_stmts stmts [] with
      | .error e => .error e
      | .ok consts => .ok (to_toml consts)

/-- `main`'s output text: the serialized table, or
`ERROR = "<str(e)>"` for whatever exception the single top-level
`except` caught. -/
def run (text : Str) : Str :=
  match pipeline text with
  | .ok s => s
  | .error e => "ERROR = \x22".data ++ e.render ++ "\x22".data

/-- The shapes a parser failure can take: an `eat` mismatch naming the
expected and found kinds, an `Unexpected token` alternative failure
naming only the found kind, or the `AttributeError` from reading
`tok.type` off `None` (plus the fuel artifact, excluded by
`parse_suff`). -/
def ParserErrShape (e : Err) : Prop :=
  e = .noFuel ∨ (∃ exp got, e = .syntaxExpected exp got) ∨
    (∃ t, e = .syntaxUnexpected t) ∨ e = .noneTypeAttr


/-- Constant names in an expression node contain no line break. -/
def exprNamesNoNL : ExprNode → Prop
  | .num _ => True
  | .var name => '\x0a' ∉ name
  | .plus a b => exprNamesNoNL a ∧ exprNamesNoNL b
  | .minus a b => exprNamesNoNL a ∧ exprNamesNoNL b
  | .pow a b => exprNamesNoNL a ∧ exprNamesNoNL b
  | .abs a => exprNamesNoNL a

mutual

/-- Constant names in a value node contain no line break. -/
def valueNamesNoNL : ValueNode → Prop
  | .number _ => True
  | .list items => itemsNamesNoNL items
  | .const e => exprNamesNoNL e

def itemsNamesNoNL : List ValueNode → Prop
  | [] => True
  | v :: rest => valueNamesNoNL v ∧ itemsNamesNoNL rest

end

/-- The declared name and all referenced names of a statement contain no
line break. -/
def stmtNamesNoNL (s : Stmt) : Prop :=
  '\x0a' ∉ s.name ∧ valueNamesNoNL s.val


/-! ## Specification-side definitions

These definitions do not model source code; they are the vocabulary in
which the claims are stated (line splitting, key-order bookkeeping, and
the serializer rendering as §4.4 of the specification words it). -/

/-- Splitting a text at line breaks (the inverse of `"\n".join` on
break-free lines); used to state "one line per …" claims. -/
def splitNL : Str → List Str
  | [] => [[]]
  | c :: r =>
      if c = '\x0a' then [] :: splitNL r
      else
        match splitNL r with
        | h :: t => (c :: h) :: t
        | [] => [[c]]

/-- The key sequence of a Python dict after inserting a list of keys in
order: an existing key keeps its position, a new key is appended. -/
def insertKeys : List Str → List Str → List Str
  | ks, [] => ks
  | ks, n :: rest => insertKeys (if n ∈ ks then ks else ks ++ [n]) rest

/-- `sep.join(parts)`. -/
def joinSep (sep : Str) : List Str → Str
  | [] => []
  | [x] => x
  | x :: xs => x ++ sep ++ joinSep sep xs

mutual

/-- A resolved value built of integers and (arbitrarily nested) lists
only — no float ever produced by a negative-exponent `pow`. -/
def IntListOnly : Value → Bool
  | .int _ => true
  | .float _ => false
  | .list vs => IntListOnlyList vs

def IntListOnlyList : List Value → Bool
  | [] => true
  | v :: rest => IntListOnly v && IntListOnlyList rest

end

mutual

/-- The value rendering exactly as §4.4 of the specification words it:
base-10 text for an integer, and for a sequence a bracketed,
comma-and-space-separated list of the same rendering applied recursively
to each element (the empty list rendering as `[]`).  Stated from the
specification's words only, to be compared against the source-derived
`pyStr`; the specification gives no rendering for floats (its value
domain is integers and integer lists), so that branch is arbitrary. -/
def specRender : Value → Str
  | .int n => intToStr n
  | .list vs => '[' :: joinSep ", ".data (specRenderList vs) ++ [']']
  | .float _ => []

def specRenderList : List Value → List Str
  | [] => []
  | v :: rest => specRender v :: specRenderList rest

end

/-! ## Lexer lemmas -/

/-- If nothing matches, then in particular the whitespace pattern did not
match, so the offending character is not a space, tab or newline. -/
theorem firstMatch_none_not_ws {c : Char} {rest : Str}
    (h : firstMatch (c :: rest) = none) : isWsC c = false := by
  have hws := firstMatchList_none h (.WS, runMatch isWsC) (by simp [TOKEN_REGEX])
  simp only [runMatch] at hws
  split at hws
  · rename_i hz
    by_contra hc
    simp only [Bool.not_eq_false] at hc
    simp [List.takeWhile_cons, hc] at hz
  · exact absurd hws (by simp)

theorem take_takeWhile_len (p : Char → Bool) :
    ∀ cs : Str, cs.take (cs.takeWhile p).length = cs.takeWhile p := by
  intro cs
  induction cs with
  | nil => rfl
  | cons c r ih =>
      by_cases hc : p c
      · simp [List.takeWhile_cons, hc, ih]
      · simp [List.takeWhile_cons, hc]

theorem runMatch_take {p : Char → Bool} {cs : Str} {n : Nat}
    (h : runMatch p cs = some n) {c : Char} (hc : c ∈ cs.take n) : p c := by
  unfold runMatch at h
  split at h
  · exact absurd h (by simp)
  · cases h
    rw [take_takeWhile_len] at hc
    exact List.mem_takeWhile_imp hc

theorem litMatch_take {lit cs : Str} {n : Nat}
    (h : litMatch lit cs = some n) : cs.take n = lit := by
  unfold litMatch at h
  split at h
  · cases h; assumption
  · exact absurd h (by simp)

/-- Every token the lexer keeps has a value free of line breaks: digit
runs, the lowercase keywords, uppercase identifier runs and the
single-character punctuation all exclude `'\n'` (whitespace and comments,
whose matched text can touch a line break, are dropped). -/
theorem firstMatch_value_noNL {cs : Str} {t : TokType} {n : Nat}
    (h : firstMatch cs = some (t, n))
    (hws : ¬(t = .WS ∨ t = .COMMENT)) : '\x0a' ∉ cs.take n := by
  obtain ⟨m, hmem, hms⟩ := firstMatchList_some h
  fin_cases hmem
  · exact absurd (.inr rfl) hws
  · intro hmem
    have := runMatch_take hms hmem
    simp [isDigitC] at this
  case _ => rw [litMatch_take hms]; decide
  case _ => rw [litMatch_take hms]; decide
  case _ => rw [litMatch_take hms]; decide
  case _ => rw [litMatch_take hms]; decide
  · intro hmem
    have := runMatch_take hms hmem
    simp [isUpperC] at this
  case _ => rw [litMatch_take hms]; decide
  case _ => rw [litMatch_take hms]; decide
  case _ => rw [litMatch_take hms]; decide
  case _ => rw [litMatch_take hms]; decide
  case _ => rw [litMatch_take hms]; decide
  case _ => rw [litMatch_take hms]; decide
  case _ => rw [litMatch_take hms]; decide
  case _ => rw [litMatch_take hms]; decide
  case _ => rw [litMatch_take hms]; decide
  case _ => rw [litMatch_take hms]; decide
  · exact absurd (.inl rfl) hws

/-- Induction workhorse for the lexing loop: every token in a successful
lex is a non-whitespace, non-comment token whose literal text contains no
line break. -/
theorem lexAux_ok_tokens :
    ∀ fuel cs pos toks, lexAux fuel cs pos = .ok toks →
      ∀ t ∈ toks,
        ¬(t.type = .WS ∨ t.type = .COMMENT) ∧ '\x0a' ∉ t.value := by
  intro fuel
  induction fuel with
  | zero =>
      intro cs pos toks h
      exact absurd h (by rw [lexAux]; simp)
  | succ fuel ih =>
      intro cs pos toks h
      match cs with
      | [] =>
          rw [lexAux] at h
          cases h
          simp
      | c :: rest =>
          rw [lexAux] at h
          cases hm : firstMatch (c :: rest) with
          | none => rw [hm] at h; exact absurd h (by simp)
          | some r =>
              obtain ⟨t, n⟩ := r
              rw [hm] at h
              simp only at h
              cases hrec : lexAux fuel ((c :: rest).drop n) (pos + n) with
              | error e => rw [hrec] at h; exact absurd h (by simp)
              | ok toks' =>
                  rw [hrec] at h
                  simp only [Except.ok.injEq] at h
                  have ihall := ih _ _ _ hrec
                  subst h
                  intro u hu
                  split at hu
                  · exact ihall u hu
                  · rcases List.mem_cons.mp hu with rfl | hu
                    · rename_i hcond
                      exact ⟨hcond, firstMatch_value_noNL hm hcond⟩
                    · exact ihall u hu

/-- Tokens produced by `lex` are never whitespace or comment tokens. -/
theorem lex_no_ws_comment {text : Str} {toks : List Token}
    (h : lex text = .ok toks) :
    ∀ t ∈ toks, t.type ≠ .WS ∧ t.type ≠ .COMMENT := by
  intro t ht
  have := (lexAux_ok_tokens (text.length + 1) text 0 toks h t ht).1
  exact ⟨fun hc => this (.inl hc), fun hc => this (.inr hc)⟩

/-- Token values produced by `lex` contain no line break. -/
theorem lex_values_noNL {text : Str} {toks : List Token}
    (h : lex text = .ok toks) : ∀ t ∈ toks, '\x0a' ∉ t.value :=
  fun t ht => (lexAux_ok_tokens (text.length + 1) text 0 toks h t ht).2

/-- A lexing failure is either the fuel artifact or a `LexError` carrying
the offending character (never a whitespace character, which the `WS`
pattern would have consumed) and its offset. -/
theorem lexAux_error_shape :
    ∀ fuel cs pos e, lexAux fuel cs pos = .error e →
      e = .noFuel ∨ ∃ c p, e = .lexError c p ∧ isWsC c = false := by
  intro fuel
  induction fuel with
  | zero =>
      intro cs pos e h
      rw [lexAux] at h
      cases h
      exact .inl rfl
  | succ fuel ih =>
      intro cs pos e h
      match cs with
      | [] =>
          rw [lexAux] at h
          exact absurd h (by simp)
      | c :: rest =>
          rw [lexAux] at h
          cases hm : firstMatch (c :: rest) with
          | none =>
              rw [hm] at h
              simp only [Except.error.injEq] at h
              exact .inr ⟨c, pos, h.symm, firstMatch_none_not_ws hm⟩
          | some r =>
              obtain ⟨t, n⟩ := r
              rw [hm] at h
              simp only at h
              cases hrec : lexAux fuel ((c :: rest).drop n) (pos + n) with
              | ok toks' => rw [hrec] at h; exact absurd h (by simp)
              | error e' =>
                  rw [hrec] at h
                  simp only [Except.error.injEq] at h
                  subst h
                  exact ih _ _ _ hrec

/-- The fuel supplied by `lex` is always sufficient: every successful
match consumes at least one character, so the loop runs out of input
before it runs out of fuel. -/
theorem lexAux_suff :
    ∀ fuel cs pos, cs.length < fuel →
      lexAux fuel cs pos ≠ .error .noFuel := by
  intro fuel
  induction fuel with
  | zero => intro cs pos hlen; omega
  | succ fuel ih =>
      intro cs pos hlen h
      match cs with
      | [] =>
          rw [lexAux] at h
          exact absurd h (by simp)
      | c :: rest =>
          rw [lexAux] at h
          cases hm : firstMatch (c :: rest) with
          | none =>
              rw [hm] at h
              exact absurd h (by simp)
          | some r =>
              obtain ⟨t, n⟩ := r
              rw [hm] at h
              simp only at h
              cases hrec : lexAux fuel ((c :: rest).drop n) (pos + n) with
              | ok toks' => rw [hrec] at h; exact absurd h (by simp)
              | error e' =>
                  rw [hrec] at h
                  simp only [Except.error.injEq] at h
                  have hlen' : ((c :: rest).drop n).length < fuel := by
                    have := firstMatch_pos hm
                    simp only [List.length_drop, List.length_cons]
                    simp only [List.length_cons] at hlen
                    omega
                  exact ih _ _ hlen' (by rw [hrec, h])

/-- A failure of `lex` is always a `LexError` on a non-whitespace
character: the fuel artifact never surfaces at the top level. -/
theorem lex_error_shape {text : Str} {e : Err}
    (h : lex text = .error e) :
    ∃ c p, e = .lexError c p ∧ isWsC c = false := by
  rcases lexAux_error_shape (text.length + 1) text 0 e h with rfl | hsh
  · exact absurd h (lexAux_suff (text.length + 1) text 0 (by omega))
  · exact hsh

/-- At a comment the scanner consumes the asterisk and every character up
to — but excluding — the next line break, emits nothing, and continues. -/
theorem lexAux_comment (fuel : Nat) (rest : Str) (pos : Nat) :
    lexAux (fuel + 1) ('*' :: rest) pos =
      lexAux fuel (rest.dropWhile (fun c => c ≠ '\x0a'))
        (pos + (1 + (rest.takeWhile (fun c => c ≠ '\x0a')).length)) := by
  have hm : firstMatch ('*' :: rest) =
      some (.COMMENT, 1 + (rest.takeWhile (fun c => c ≠ '\x0a')).length) := by
    simp [firstMatch, TOKEN_REGEX, firstMatchList, commentMatch]
  have hgen : ∀ (l : Str) (p : Char → Bool),
      l.drop (l.takeWhile p).length = l.dropWhile p := by
    intro l p
    induction l with
    | nil => rfl
    | cons a l ih =>
        by_cases hp : p a
        · simp [List.takeWhile_cons, List.dropWhile_cons, hp, ih]
        · simp [List.takeWhile_cons, List.dropWhile_cons, hp]
  have hdrop : ('*' :: rest).drop
      (1 + (rest.takeWhile (fun c => c ≠ '\x0a')).length) =
      rest.dropWhile (fun c => c ≠ '\x0a') := by
    rw [Nat.add_comm, ← hgen rest (fun c => c ≠ '\x0a')]
    rfl
  rw [lexAux, hm]
  simp only [hdrop]
  cases h : lexAux fuel (rest.dropWhile (fun c => c ≠ '\x0a'))
      (pos + (1 + (rest.takeWhile (fun c => c ≠ '\x0a')).length)) with
  | ok toks => simp
  | error e => simp

/-- When no pattern matches at the current position, the scanner fails
immediately, naming the offending character and its offset. -/
theorem lexAux_no_match {c : Char} {rest : Str} (fuel pos : Nat)
    (h : firstMatch (c :: rest) = none) :
    lexAux (fuel + 1) (c :: rest) pos = .error (.lexError c pos) := by
  rw [lexAux, h]

/-! ## Parser lemmas -/

theorem eat_ok {ty : TokType} {toks : List Token} {tok : Token}
    {rest : List Token} (h : eat ty toks = .ok (tok, rest)) :
    toks = tok :: rest ∧ tok.type = ty := by
  match toks with
  | [] => exact absurd h (by simp [eat])
  | t :: r =>
      simp only [eat] at h
      split at h
      · rename_i hty
        simp only [Except.ok.injEq, Prod.mk.injEq] at h
        obtain ⟨rfl, rfl⟩ := h
        exact ⟨rfl, hty⟩
      · exact absurd h (by simp)

theorem eat_error {ty : TokType} {toks : List Token} {e : Err}
    (h : eat ty toks = .error e) : ∃ got, e = .syntaxExpected ty got := by
  match toks with
  | [] =>
      simp only [eat, Except.error.injEq] at h
      exact ⟨none, h.symm⟩
  | t :: r =>
      simp only [eat] at h
      split at h
      · exact absurd h (by simp)
      · simp only [Except.error.injEq] at h
        exact ⟨some t.type, h.symm⟩

/-- Whatever a parser function returns, the leftover cursor position is a
suffix of its input, and the productions that must consume at least one
token do so: `self.pos` only moves forward. -/
theorem parse_consume : ∀ fuel : Nat,
    (∀ toks v rest, parse_value fuel toks = .ok (v, rest) →
      rest.length < toks.length ∧ rest <:+ toks) ∧
    (∀ toks v rest, parse_list fuel toks = .ok (v, rest) →
      rest.length < toks.length ∧ rest <:+ toks) ∧
    (∀ toks vs rest, parse_list_items fuel toks = .ok (vs, rest) →
      rest.length ≤ toks.length ∧ rest <:+ toks) ∧
    (∀ toks v rest, parse_const_expr fuel toks = .ok (v, rest) →
      rest.length < toks.length ∧ rest <:+ toks) ∧
    (∀ toks x rest, parse_expr fuel toks = .ok (x, rest) →
      rest.length < toks.length ∧ rest <:+ toks) ∧
    (∀ node toks x rest, parse_expr_loop fuel node toks = .ok (x, rest) →
      rest.length ≤ toks.length ∧ rest <:+ toks) ∧
    (∀ toks x rest, parse_term fuel toks = .ok (x, rest) →
      rest.length < toks.length ∧ rest <:+ toks) ∧
    (∀ toks s rest, parse_stmt fuel toks = .ok (s, rest) →
      rest.length < toks.length ∧ rest <:+ toks) := by
  intro fuel
  induction fuel with
  | zero =>
      refine ⟨?_, ?_, ?_, ?_, ?_, ?_, ?_, ?_⟩ <;> intros <;>
        simp_all [parse_value, parse_list, parse_list_items,
          parse_const_expr, parse_expr, parse_expr_loop, parse_term,
          parse_stmt]
  | succ f ih =>
      obtain ⟨ihv, ihl, ihi, ihc, ihe, ihlp, iht, ihs⟩ := ih
      refine ⟨?_, ?_, ?_, ?_, ?_, ?_, ?_, ?_⟩
      · -- parse_value
        intro toks v rest h
        rw [parse_value] at h
        split at h
        · exact absurd h (by simp)
        · split at h
          · split at h
            · rename_i t r heat
              simp only [Except.ok.injEq, Prod.mk.injEq] at h
              obtain ⟨-, rfl⟩ := h
              obtain ⟨rfl, -⟩ := eat_ok heat
              exact ⟨by simp, List.suffix_cons _ _⟩
            · exact absurd h (by simp)
          · split at h
            · exact ihl _ _ _ h
            · split at h
              · exact ihc _ _ _ h
              · exact absurd h (by simp)
      · -- parse_list
        intro toks v rest h
        rw [parse_list] at h
        split at h
        · exact absurd h (by simp)
        · rename_i t1 r1 h1
          split at h
          · exact absurd h (by simp)
          · rename_i t2 r2 h2
            split at h
            · exact absurd h (by simp)
            · rename_i items r3 h3
              split at h
              · exact absurd h (by simp)
              · rename_i t4 r4 h4
                simp only [Except.ok.injEq, Prod.mk.injEq] at h
                obtain ⟨-, rfl⟩ := h
                obtain ⟨rfl, -⟩ := eat_ok h1
                obtain ⟨rfl, -⟩ := eat_ok h2
                obtain ⟨hi1, hi2⟩ := ihi _ _ _ h3
                obtain ⟨rfl, -⟩ := eat_ok h4
                refine ⟨?_, ?_⟩
                · simp only [List.length_cons] at hi1 ⊢
                  omega
                · refine List.IsSuffix.trans ?_ (List.suffix_cons t1 _)
                  refine List.IsSuffix.trans ?_ (List.suffix_cons t2 _)
                  exact (List.suffix_cons t4 _).trans hi2
      · -- parse_list_items
        intro toks vs rest h
        rw [parse_list_items] at h
        split at h
        · simp only [Except.ok.injEq, Prod.mk.injEq] at h
          obtain ⟨-, rfl⟩ := h
          exact ⟨le_rfl, List.suffix_refl _⟩
        · split at h
          · simp only [Except.ok.injEq, Prod.mk.injEq] at h
            obtain ⟨-, rfl⟩ := h
            exact ⟨le_rfl, List.suffix_refl _⟩
          · split at h
            · exact absurd h (by simp)
            · rename_i v r h1
              split at h
              · exact absurd h (by simp)
              · rename_i vs' r2 h2
                simp only [Except.ok.injEq, Prod.mk.injEq] at h
                obtain ⟨-, rfl⟩ := h
                obtain ⟨ha1, ha2⟩ := ihv _ _ _ h1
                obtain ⟨hb1, hb2⟩ := ihi _ _ _ h2
                exact ⟨by omega, hb2.trans ha2⟩
      · -- parse_const_expr
        intro toks v rest h
        rw [parse_const_expr] at h
        split at h
        · exact absurd h (by simp)
        · rename_i t1 r1 h1
          split at h
          · exact absurd h (by simp)
          · rename_i t2 r2 h2
            split at h
            · exact absurd h (by simp)
            · rename_i x r3 h3
              split at h
              · exact absurd h (by simp)
              · rename_i t4 r4 h4
                simp only [Except.ok.injEq, Prod.mk.injEq] at h
                obtain ⟨-, rfl⟩ := h
                obtain ⟨rfl, -⟩ := eat_ok h1
                obtain ⟨rfl, -⟩ := eat_ok h2
                obtain ⟨hi1, hi2⟩ := ihe _ _ _ h3
                obtain ⟨rfl, -⟩ := eat_ok h4
                refine ⟨?_, ?_⟩
                · simp only [List.length_cons] at hi1 ⊢
                  omega
                · refine List.IsSuffix.trans ?_ (List.suffix_cons t1 _)
                  refine List.IsSuffix.trans ?_ (List.suffix_cons t2 _)
                  exact (List.suffix_cons t4 _).trans hi2
      · -- parse_expr
        intro toks x rest h
        rw [parse_expr] at h
        split at h
        · exact absurd h (by simp)
        · rename_i node r h1
          obtain ⟨ha1, ha2⟩ := iht _ _ _ h1
          obtain ⟨hb1, hb2⟩ := ihlp _ _ _ _ h
          exact ⟨by omega, hb2.trans ha2⟩
      · -- parse_expr_loop
        intro node toks x rest h
        rw [parse_expr_loop] at h
        split at h
        · simp only [Except.ok.injEq, Prod.mk.injEq] at h
          obtain ⟨-, rfl⟩ := h
          exact ⟨le_rfl, List.suffix_refl _⟩
        · split at h
          · split at h
            · exact absurd h (by simp)
            · rename_i op r1 h1
              split at h
              · exact absurd h (by simp)
              · rename_i right r2 h2
                obtain ⟨rfl, -⟩ := eat_ok h1
                obtain ⟨ha1, ha2⟩ := iht _ _ _ h2
                obtain ⟨hb1, hb2⟩ := ihlp _ _ _ _ h
                refine ⟨by simp only [List.length_cons]; omega, ?_⟩
                exact (hb2.trans ha2).trans (List.suffix_cons op _)
          · simp only [Except.ok.injEq, Prod.mk.injEq] at h
            obtain ⟨-, rfl⟩ := h
            exact ⟨le_rfl, List.suffix_refl _⟩
      · -- parse_term
        intro toks x rest h
        rw [parse_term] at h
        split at h
        · exact absurd h (by simp)
        · split at h
          · -- MINUS
            split at h
            · exact absurd h (by simp)
            · rename_i t1 r1 h1
              split at h
              · exact absurd h (by simp)
              · rename_i term r2 h2
                simp only [Except.ok.injEq, Prod.mk.injEq] at h
                obtain ⟨-, rfl⟩ := h
                obtain ⟨rfl, -⟩ := eat_ok h1
                obtain ⟨ha1, ha2⟩ := iht _ _ _ h2
                refine ⟨by simp only [List.length_cons] at ha1 ⊢; omega, ?_⟩
                exact ha2.trans (List.suffix_cons t1 _)
          · split at h
            · -- NUMBER
              split at h
              · exact absurd h (by simp)
              · rename_i t1 r1 h1
                simp only [Except.ok.injEq, Prod.mk.injEq] at h
                obtain ⟨-, rfl⟩ := h
                obtain ⟨rfl, -⟩ := eat_ok h1
                exact ⟨by simp, List.suffix_cons _ _⟩
            · split at h
              · -- IDENT
                split at h
                · exact absurd h (by simp)
                · rename_i t1 r1 h1
                  simp only [Except.ok.injEq, Prod.mk.injEq] at h
                  obtain ⟨-, rfl⟩ := h
                  obtain ⟨rfl, -⟩ := eat_ok h1
                  exact ⟨by simp, List.suffix_cons _ _⟩
              · split at h
                · -- POW
                  split at h
                  · exact absurd h (by simp)
                  · rename_i t1 r1 h1
                    split at h
                    · exact absurd h (by simp)
                    · rename_i t2 r2 h2
                      split at h
                      · exact absurd h (by simp)
                      · rename_i a r3 h3
                        split at h
                        · exact absurd h (by simp)
                        · rename_i t4 r4 h4
                          split at h
                          · exact absurd h (by simp)
                          · rename_i b r5 h5
                            split at h
                            · exact absurd h (by simp)
                            · rename_i t6 r6 h6
                              simp only [Except.ok.injEq, Prod.mk.injEq] at h
                              obtain ⟨-, rfl⟩ := h
                              obtain ⟨rfl, -⟩ := eat_ok h1
                              obtain ⟨rfl, -⟩ := eat_ok h2
                              obtain ⟨ha1, ha2⟩ := ihe _ _ _ h3
                              obtain ⟨rfl, -⟩ := eat_ok h4
                              obtain ⟨hb1, hb2⟩ := ihe _ _ _ h5
                              obtain ⟨rfl, -⟩ := eat_ok h6
                              refine ⟨?_, ?_⟩
                              · simp only [List.length_cons] at ha1 hb1 ⊢
                                omega
                              · refine List.IsSuffix.trans ?_ (List.suffix_cons t1 _)
                                refine List.IsSuffix.trans ?_ (List.suffix_cons t2 _)
                                refine List.IsSuffix.trans ?_ ha2
                                refine List.IsSuffix.trans ?_ (List.suffix_cons t4 _)
                                refine List.IsSuffix.trans ?_ hb2
                                exact List.suffix_cons t6 _
                · split at h
                  · -- ABS
                    split at h
                    · exact absurd h (by simp)
                    · rename_i t1 r1 h1
                      split at h
                      · exact absurd h (by simp)
                      · rename_i t2 r2 h2
                        split at h
                        · exact absurd h (by simp)
                        · rename_i a r3 h3
                          split at h
                          · exact absurd h (by simp)
                          · rename_i t4 r4 h4
                            simp only [Except.ok.injEq, Prod.mk.injEq] at h
                            obtain ⟨-, rfl⟩ := h
                            obtain ⟨rfl, -⟩ := eat_ok h1
                            obtain ⟨rfl, -⟩ := eat_ok h2
                            obtain ⟨ha1, ha2⟩ := ihe _ _ _ h3
                            obtain ⟨rfl, -⟩ := eat_ok h4
                            refine ⟨?_, ?_⟩
                            · simp only [List.length_cons] at ha1 ⊢
                              omega
                            · refine List.IsSuffix.trans ?_ (List.suffix_cons t1 _)
                              refine List.IsSuffix.trans ?_ (List.suffix_cons t2 _)
                              refine List.IsSuffix.trans ?_ ha2
                              exact List.suffix_cons t4 _
                  · exact absurd h (by simp)
      · -- parse_stmt
        intro toks s rest h
        rw [parse_stmt] at h
        split at h
        · exact absurd h (by simp)
        · rename_i t1 r1 h1
          split at h
          · exact absurd h (by simp)
          · rename_i t2 r2 h2
            split at h
            · exact absurd h (by simp)
            · rename_i t3 r3 h3
              split at h
              · exact absurd h (by simp)
              · rename_i v r4 h4
                split at h
                · exact absurd h (by simp)
                · rename_i t5 r5 h5
                  simp only [Except.ok.injEq, Prod.mk.injEq] at h
                  obtain ⟨-, rfl⟩ := h
                  obtain ⟨rfl, -⟩ := eat_ok h1
                  obtain ⟨rfl, -⟩ := eat_ok h2
                  obtain ⟨rfl, -⟩ := eat_ok h3
                  obtain ⟨ha1, ha2⟩ := ihv _ _ _ h4
                  obtain ⟨rfl, -⟩ := eat_ok h5
                  refine ⟨?_, ?_⟩
                  · simp only [List.length_cons] at ha1 ⊢
                    omega
                  · refine List.IsSuffix.trans ?_ (List.suffix_cons t1 _)
                    refine List.IsSuffix.trans ?_ (List.suffix_cons t2 _)
                    refine List.IsSuffix.trans ?_ (List.suffix_cons t3 _)
                    refine List.IsSuffix.trans ?_ ha2
                    exact List.suffix_cons t5 _

/-- The fuel bounds under which each parser function never exhausts its
fuel: the real recursion of `Parser` terminates because every nesting
level consumes input tokens. -/
theorem parse_suff : ∀ fuel : Nat,
    (∀ toks, 2 * toks.length + 2 ≤ fuel →
      parse_value fuel toks ≠ .error .noFuel) ∧
    (∀ toks, 2 * toks.length + 1 ≤ fuel →
      parse_list fuel toks ≠ .error .noFuel) ∧
    (∀ toks, 2 * toks.length + 4 ≤ fuel →
      parse_list_items fuel toks ≠ .error .noFuel) ∧
    (∀ toks, 2 * toks.length + 1 ≤ fuel →
      parse_const_expr fuel toks ≠ .error .noFuel) ∧
    (∀ toks, 2 * toks.length + 4 ≤ fuel →
      parse_expr fuel toks ≠ .error .noFuel) ∧
    (∀ node toks, 2 * toks.length + 5 ≤ fuel →
      parse_expr_loop fuel node toks ≠ .error .noFuel) ∧
    (∀ toks, 2 * toks.length + 3 ≤ fuel →
      parse_term fuel toks ≠ .error .noFuel) ∧
    (∀ toks, 2 * toks.length + 1 ≤ fuel →
      parse_stmt fuel toks ≠ .error .noFuel) ∧
    (∀ toks, 2 * toks.length + 2 ≤ fuel →
      parse_program fuel toks ≠ .error .noFuel) := by
  intro fuel
  induction fuel with
  | zero =>
      refine ⟨?_, ?_, ?_, ?_, ?_, ?_, ?_, ?_, ?_⟩ <;> intros <;> omega
  | succ f ih =>
      obtain ⟨ihv, ihl, ihi, ihc, ihe, ihlp, iht, ihs, ihp⟩ := ih
      refine ⟨?_, ?_, ?_, ?_, ?_, ?_, ?_, ?_, ?_⟩
      · -- parse_value
        intro toks hb h
        rw [parse_value] at h
        split at h
        · simp at h
        · split at h
          · split at h
            · simp at h
            · rename_i e h1
              obtain ⟨got, rfl⟩ := eat_error h1
              simp at h
          · split at h
            · exact ihl toks (by omega) h
            · split at h
              · exact ihc toks (by omega) h
              · simp at h
      · -- parse_list
        intro toks hb h
        rw [parse_list] at h
        split at h
        · rename_i e h1
          obtain ⟨got, rfl⟩ := eat_error h1
          simp at h
        · rename_i t1 r1 h1
          split at h
          · rename_i e h2
            obtain ⟨got, rfl⟩ := eat_error h2
            simp at h
          · rename_i t2 r2 h2
            split at h
            · rename_i e h3
              simp only [Except.error.injEq] at h
              subst h
              obtain ⟨rfl, -⟩ := eat_ok h1
              obtain ⟨rfl, -⟩ := eat_ok h2
              refine ihi r2 ?_ h3
              simp only [List.length_cons] at hb
              omega
            · rename_i items r3 h3
              split at h
              · rename_i e h4
                obtain ⟨got, rfl⟩ := eat_error h4
                simp at h
              · simp at h
      · -- parse_list_items
        intro toks hb h
        rw [parse_list_items] at h
        split at h
        · simp at h
        · split at h
          · simp at h
          · split at h
            · rename_i e h1
              simp only [Except.error.injEq] at h
              subst h
              exact ihv toks (by omega) h1
            · rename_i v r h1
              split at h
              · rename_i e h2
                simp only [Except.error.injEq] at h
                subst h
                have hc := ((parse_consume f).1 _ _ _ h1).1
                refine ihi r ?_ h2
                omega
              · simp at h
      · -- parse_const_expr
        intro toks hb h
        rw [parse_const_expr] at h
        split at h
        · rename_i e h1
          obtain ⟨got, rfl⟩ := eat_error h1
          simp at h
        · rename_i t1 r1 h1
          split at h
          · rename_i e h2
            obtain ⟨got, rfl⟩ := eat_error h2
            simp at h
          · rename_i t2 r2 h2
            split at h
            · rename_i e h3
              simp only [Except.error.injEq] at h
              subst h
              obtain ⟨rfl, -⟩ := eat_ok h1
              obtain ⟨rfl, -⟩ := eat_ok h2
              refine ihe r2 ?_ h3
              simp only [List.length_cons] at hb
              omega
            · rename_i x r3 h3
              split at h
              · rename_i e h4
                obtain ⟨got, rfl⟩ := eat_error h4
                simp at h
              · simp at h
      · -- parse_expr
        intro toks hb h
        rw [parse_expr] at h
        split at h
        · rename_i e h1
          simp only [Except.error.injEq] at h
          subst h
          exact iht toks (by omega) h1
        · rename_i node r h1
          have hc := ((parse_consume f).2.2.2.2.2.2.1) _ _ _ h1
          refine ihlp node r ?_ h
          omega
      · -- parse_expr_loop
        intro node toks hb h
        rw [parse_expr_loop] at h
        split at h
        · simp at h
        · split at h
          · split at h
            · rename_i e h1
              obtain ⟨got, rfl⟩ := eat_error h1
              simp at h
            · rename_i op r1 h1
              split at h
              · rename_i e h2
                simp only [Except.error.injEq] at h
                subst h
                obtain ⟨rfl, -⟩ := eat_ok h1
                refine iht r1 ?_ h2
                simp only [List.length_cons] at hb
                omega
              · rename_i right r2 h2
                obtain ⟨rfl, -⟩ := eat_ok h1
                have hc := ((parse_consume f).2.2.2.2.2.2.1) _ _ _ h2
                refine ihlp _ r2 ?_ h
                simp only [List.length_cons] at hb
                omega
          · simp at h
      · -- parse_term
        intro toks hb h
        rw [parse_term] at h
        split at h
        · simp at h
        · split at h
          · -- MINUS
            split at h
            · rename_i e h1
              obtain ⟨got, rfl⟩ := eat_error h1
              simp at h
            · rename_i t1 r1 h1
              split at h
              · rename_i e h2
                simp only [Except.error.injEq] at h
                subst h
                obtain ⟨rfl, -⟩ := eat_ok h1
                refine iht r1 ?_ h2
                simp only [List.length_cons] at hb
                omega
              · simp at h
          · split at h
            · -- NUMBER
              split at h
              · rename_i e h1
                obtain ⟨got, rfl⟩ := eat_error h1
                simp at h
              · simp at h
            · split at h
              · -- IDENT
                split at h
                · rename_i e h1
                  obtain ⟨got, rfl⟩ := eat_error h1
                  simp at h
                · simp at h
              · split at h
                · -- POW
                  split at h
                  · rename_i e h1
                    obtain ⟨got, rfl⟩ := eat_error h1
                    simp at h
                  · rename_i t1 r1 h1
                    split at h
                    · rename_i e h2
                      obtain ⟨got, rfl⟩ := eat_error h2
                      simp at h
                    · rename_i t2 r2 h2
                      split at h
                      · rename_i e h3
                        simp only [Except.error.injEq] at h
                        subst h
                        obtain ⟨rfl, -⟩ := eat_ok h1
                        obtain ⟨rfl, -⟩ := eat_ok h2
                        refine ihe r2 ?_ h3
                        simp only [List.length_cons] at hb
                        omega
                      · rename_i a r3 h3
                        split at h
                        · rename_i e h4
                          obtain ⟨got, rfl⟩ := eat_error h4
                          simp at h
                        · rename_i t4 r4 h4
                          split at h
                          · rename_i e h5
                            simp only [Except.error.injEq] at h
                            subst h
                            obtain ⟨rfl, -⟩ := eat_ok h1
                            obtain ⟨rfl, -⟩ := eat_ok h2
                            have hc := ((parse_consume f).2.2.2.2.1) _ _ _ h3
                            obtain ⟨rfl, -⟩ := eat_ok h4
                            refine ihe r4 ?_ h5
                            simp only [List.length_cons] at hb
                            simp only [List.length_cons] at hc
                            omega
                          · rename_i b r5 h5
                            split at h
                            · rename_i e h6
                              obtain ⟨got, rfl⟩ := eat_error h6
                              simp at h
                            · simp at h
                · split at h
                  · -- ABS
                    split at h
                    · rename_i e h1
                      obtain ⟨got, rfl⟩ := eat_error h1
                      simp at h
                    · rename_i t1 r1 h1
                      split at h
                      · rename_i e h2
                        obtain ⟨got, rfl⟩ := eat_error h2
                        simp at h
                      · rename_i t2 r2 h2
                        split at h
                        · rename_i e h3
                          simp only [Except.error.injEq] at h
                          subst h
                          obtain ⟨rfl, -⟩ := eat_ok h1
                          obtain ⟨rfl, -⟩ := eat_ok h2
                          refine ihe r2 ?_ h3
                          simp only [List.length_cons] at hb
                          omega
                        · rename_i a r3 h3
                          split at h
                          · rename_i e h4
                            obtain ⟨got, rfl⟩ := eat_error h4
                            simp at h
                          · simp at h
                  · simp at h
      · -- parse_stmt
        intro toks hb h
        rw [parse_stmt] at h
        split at h
        · rename_i e h1
          obtain ⟨got, rfl⟩ := eat_error h1
          simp at h
        · rename_i t1 r1 h1
          split at h
          · rename_i e h2
            obtain ⟨got, rfl⟩ := eat_error h2
            simp at h
          · rename_i t2 r2 h2
            split at h
            · rename_i e h3
              obtain ⟨got, rfl⟩ := eat_error h3
              simp at h
            · rename_i t3 r3 h3
              split at h
              · rename_i e h4
                simp only [Except.error.injEq] at h
                subst h
                obtain ⟨rfl, -⟩ := eat_ok h1
                obtain ⟨rfl, -⟩ := eat_ok h2
                obtain ⟨rfl, -⟩ := eat_ok h3
                refine ihv r3 ?_ h4
                simp only [List.length_cons] at hb
                omega
              · rename_i v r4 h4
                split at h
                · rename_i e h5
                  obtain ⟨got, rfl⟩ := eat_error h5
                  simp at h
                · simp at h
      · -- parse_program
        intro toks hb h
        rw [parse_program] at h
        split at h
        · simp at h
        · split at h
          · rename_i e h1
            simp only [Except.error.injEq] at h
            subst h
            exact ihs toks (by omega) h1
          · rename_i s r h1
            split at h
            · rename_i e h2
              simp only [Except.error.injEq] at h
              subst h
              have hc := ((parse_consume f).2.2.2.2.2.2.2) _ _ _ h1
              refine ihp r ?_ h2
              omega
            · simp at h

/-- Supplying one more unit of fuel does not change a result that was
computed without exhausting the fuel (expression-parser subsystem). -/
theorem parse_mono3 : ∀ fuel : Nat,
    (∀ toks r, parse_expr fuel toks = r → r ≠ .error .noFuel →
      parse_expr (fuel + 1) toks = r) ∧
    (∀ node toks r, parse_expr_loop fuel node toks = r →
      r ≠ .error .noFuel → parse_expr_loop (fuel + 1) node toks = r) ∧
    (∀ toks r, parse_term fuel toks = r → r ≠ .error .noFuel →
      parse_term (fuel + 1) toks = r) := by
  intro fuel
  induction fuel with
  | zero =>
      refine ⟨?_, ?_, ?_⟩
      · intro toks r h hne
        rw [parse_expr] at h
        exact absurd h.symm hne
      · intro node toks r h hne
        rw [parse_expr_loop] at h
        exact absurd h.symm hne
      · intro toks r h hne
        rw [parse_term] at h
        exact absurd h.symm hne
  | succ f ih =>
      obtain ⟨ihe, ihlp, iht⟩ := ih
      have propagate : ∀ {e : Err} {r : Except Err (ExprNode × List Token)},
          Except.error e = r → r ≠ .error .noFuel → e ≠ .noFuel := by
        intro e r h hne hc
        exact hne (by rw [← h, hc])
      refine ⟨?_, ?_, ?_⟩
      · -- parse_expr
        intro toks r h hne
        rw [parse_expr] at h
        split at h
        · rename_i e h1
          rw [parse_expr]
          simp only [iht _ _ h1 (by intro hc; exact propagate h hne (by injection hc))]
          exact h
        · rename_i node r1 h1
          rw [parse_expr]
          simp only [iht _ _ h1 (by simp)]
          exact ihlp _ _ _ h hne
      · -- parse_expr_loop
        intro node toks r h hne
        rw [parse_expr_loop] at h
        split at h
        · rename_i hpk
          rw [parse_expr_loop]
          simp only [hpk]
          exact h
        · rename_i tok hpk
          split at h
          · rename_i hc
            split at h
            · rename_i e h1
              rw [parse_expr_loop]
              simp only [hpk]
              rw [if_pos hc]
              simp only [h1]
              exact h
            · rename_i op r1 h1
              split at h
              · rename_i e h2
                rw [parse_expr_loop]
                simp only [hpk]
                rw [if_pos hc]
                simp only [h1]
                simp only [iht _ _ h2 (by intro hcx; exact propagate h hne (by injection hcx))]
                exact h
              · rename_i right r2 h2
                rw [parse_expr_loop]
                simp only [hpk]
                rw [if_pos hc]
                simp only [h1]
                simp only [iht _ _ h2 (by simp)]
                exact ihlp _ _ _ h hne
          · rename_i hc
            rw [parse_expr_loop]
            simp only [hpk]
            rw [if_neg hc]
            exact h
      · -- parse_term
        intro toks r h hne
        rw [parse_term] at h
        split at h
        · rename_i hpk
          rw [parse_term]
          simp only [hpk]
          exact h
        · rename_i tok hpk
          split at h
          · -- MINUS
            rename_i hc
            split at h
            · rename_i e h1
              rw [parse_term]
              simp only [hpk]
              rw [if_pos hc]
              simp only [h1]
              exact h
            · rename_i t1 r1 h1
              split at h
              · rename_i e h2
                rw [parse_term]
                simp only [hpk]
                rw [if_pos hc]
                simp only [h1]
                simp only [iht _ _ h2 (by intro hcx; exact propagate h hne (by injection hcx))]
                exact h
              · rename_i term r2 h2
                rw [parse_term]
                simp only [hpk]
                rw [if_pos hc]
                simp only [h1]
                simp only [iht _ _ h2 (by simp)]
                exact h
          · rename_i hn1
            split at h
            · -- NUMBER
              rename_i hc
              split at h
              · rename_i e h1
                rw [parse_term]
                simp only [hpk]
                rw [if_neg hn1, if_pos hc]
                simp only [h1]
                exact h
              · rename_i t1 r1 h1
                rw [parse_term]
                simp only [hpk]
                rw [if_neg hn1, if_pos hc]
                simp only [h1]
                exact h
            · rename_i hn2
              split at h
              · -- IDENT
                rename_i hc
                split at h
                · rename_i e h1
                  rw [parse_term]
                  simp only [hpk]
                  rw [if_neg hn1, if_neg hn2, if_pos hc]
                  simp only [h1]
                  exact h
                · rename_i t1 r1 h1
                  rw [parse_term]
                  simp only [hpk]
                  rw [if_neg hn1, if_neg hn2, if_pos hc]
                  simp only [h1]
                  exact h
              · rename_i hn3
                split at h
                · -- POW
                  rename_i hc
                  split at h
                  · rename_i e h1
                    rw [parse_term]
                    simp only [hpk]
                    rw [if_neg hn1, if_neg hn2, if_neg hn3, if_pos hc]
                    simp only [h1]
                    exact h
                  · rename_i t1 r1 h1
                    split at h
                    · rename_i e h2
                      rw [parse_term]
                      simp only [hpk]
                      rw [if_neg hn1, if_neg hn2, if_neg hn3, if_pos hc]
                      simp only [h1, h2]
                      exact h
                    · rename_i t2 r2 h2
                      split at h
                      · rename_i e h3
                        rw [parse_term]
                        simp only [hpk]
                        rw [if_neg hn1, if_neg hn2, if_neg hn3, if_pos hc]
                        simp only [h1, h2]
                        simp only [ihe _ _ h3 (by intro hcx; exact propagate h hne (by injection hcx))]
                        exact h
                      · rename_i a r3 h3
                        split at h
                        · rename_i e h4
                          rw [parse_term]
                          simp only [hpk]
                          rw [if_neg hn1, if_neg hn2, if_neg hn3, if_pos hc]
                          simp only [h1, h2]
                          simp only [ihe _ _ h3 (by simp), h4]
                          exact h
                        · rename_i t4 r4 h4
                          split at h
                          · rename_i e h5
                            rw [parse_term]
                            simp only [hpk]
                            rw [if_neg hn1, if_neg hn2, if_neg hn3, if_pos hc]
                            simp only [h1, h2]
                            simp only [ihe _ _ h3 (by simp), h4]
                            simp only [ihe _ _ h5 (by intro hcx; exact propagate h hne (by injection hcx))]
                            exact h
                          · rename_i b r5 h5
                            split at h
                            · rename_i e h6
                              rw [parse_term]
                              simp only [hpk]
                              rw [if_neg hn1, if_neg hn2, if_neg hn3, if_pos hc]
                              simp only [h1, h2]
                              simp only [ihe _ _ h3 (by simp), h4]
                              simp only [ihe _ _ h5 (by simp), h6]
                              exact h
                            · rename_i t6 r6 h6
                              rw [parse_term]
                              simp only [hpk]
                              rw [if_neg hn1, if_neg hn2, if_neg hn3, if_pos hc]
                              simp only [h1, h2]
                              simp only [ihe _ _ h3 (by simp), h4]
                              simp only [ihe _ _ h5 (by simp), h6]
                              exact h
                · rename_i hn4
                  split at h
                  · -- ABS
                    rename_i hc
                    split at h
                    · rename_i e h1
                      rw [parse_term]
                      simp only [hpk]
                      rw [if_neg hn1, if_neg hn2, if_neg hn3, if_neg hn4,
                        if_pos hc]
                      simp only [h1]
                      exact h
                    · rename_i t1 r1 h1
                      split at h
                      · rename_i e h2
                        rw [parse_term]
                        simp only [hpk]
                        rw [if_neg hn1, if_neg hn2, if_neg hn3, if_neg hn4,
                          if_pos hc]
                        simp only [h1, h2]
                        exact h
                      · rename_i t2 r2 h2
                        split at h
                        · rename_i e h3
                          rw [parse_term]
                          simp only [hpk]
                          rw [if_neg hn1, if_neg hn2, if_neg hn3, if_neg hn4,
                            if_pos hc]
                          simp only [h1, h2]
                          simp only [ihe _ _ h3 (by intro hcx; exact propagate h hne (by injection hcx))]
                          exact h
                        · rename_i a r3 h3
                          split at h
                          · rename_i e h4
                            rw [parse_term]
                            simp only [hpk]
                            rw [if_neg hn1, if_neg hn2, if_neg hn3, if_neg hn4,
                              if_pos hc]
                            simp only [h1, h2]
                            simp only [ihe _ _ h3 (by simp), h4]
                            exact h
                          · rename_i t4 r4 h4
                            rw [parse_term]
                            simp only [hpk]
                            rw [if_neg hn1, if_neg hn2, if_neg hn3, if_neg hn4,
                              if_pos hc]
                            simp only [h1, h2]
                            simp only [ihe _ _ h3 (by simp), h4]
                            exact h
                  · rename_i hn5
                    rw [parse_term]
                    simp only [hpk]
                    rw [if_neg hn1, if_neg hn2, if_neg hn3, if_neg hn4,
                      if_neg hn5]
                    exact h

/-- Fuel monotonicity, many steps (`parse_term`). -/
theorem parse_term_mono_le {f g : Nat} {toks : List Token}
    {r : Except Err (ExprNode × List Token)} (hfg : f ≤ g)
    (h : parse_term f toks = r) (hne : r ≠ .error .noFuel) :
    parse_term g toks = r := by
  induction g with
  | zero =>
      have : f = 0 := by omega
      subst this
      exact h
  | succ g ihg =>
      rcases Nat.lt_or_ge f (g + 1) with hlt | hge
      · exact (parse_mono3 g).2.2 _ _ (ihg (by omega)) hne
      · have : f = g + 1 := by omega
        subst this
        exact h

/-- Fuel monotonicity, many steps (`parse_expr_loop`). -/
theorem parse_expr_loop_mono_le {f g : Nat} {node : ExprNode}
    {toks : List Token} {r : Except Err (ExprNode × List Token)}
    (hfg : f ≤ g) (h : parse_expr_loop f node toks = r)
    (hne : r ≠ .error .noFuel) : parse_expr_loop g node toks = r := by
  induction g with
  | zero =>
      have : f = 0 := by omega
      subst this
      exact h
  | succ g ihg =>
      rcases Nat.lt_or_ge f (g + 1) with hlt | hge
      · exact (parse_mono3 g).2.1 _ _ _ (ihg (by omega)) hne
      · have : f = g + 1 := by omega
        subst this
        exact h

theorem parse_err_shape : ∀ fuel : Nat,
    (∀ toks e, parse_value fuel toks = .error e → ParserErrShape e) ∧
    (∀ toks e, parse_list fuel toks = .error e → ParserErrShape e) ∧
    (∀ toks e, parse_list_items fuel toks = .error e → ParserErrShape e) ∧
    (∀ toks e, parse_const_expr fuel toks = .error e → ParserErrShape e) ∧
    (∀ toks e, parse_expr fuel toks = .error e → ParserErrShape e) ∧
    (∀ node toks e, parse_expr_loop fuel node toks = .error e →
      ParserErrShape e) ∧
    (∀ toks e, parse_term fuel toks = .error e → ParserErrShape e) ∧
    (∀ toks e, parse_stmt fuel toks = .error e → ParserErrShape e) ∧
    (∀ toks e, parse_program fuel toks = .error e → ParserErrShape e) := by
  have eatShape : ∀ {ty toks e}, eat ty toks = .error e → ParserErrShape e := by
    intro ty toks e h
    obtain ⟨got, rfl⟩ := eat_error h
    exact .inr (.inl ⟨ty, got, rfl⟩)
  intro fuel
  induction fuel with
  | zero =>
      refine ⟨?_, ?_, ?_, ?_, ?_, ?_, ?_, ?_, ?_⟩
      · intro toks e h; rw [parse_value] at h; cases h; exact .inl rfl
      · intro toks e h; rw [parse_list] at h; cases h; exact .inl rfl
      · intro toks e h; rw [parse_list_items] at h; cases h; exact .inl rfl
      · intro toks e h; rw [parse_const_expr] at h; cases h; exact .inl rfl
      · intro toks e h; rw [parse_expr] at h; cases h; exact .inl rfl
      · intro node toks e h
        rw [parse_expr_loop] at h; cases h; exact .inl rfl
      · intro toks e h; rw [parse_term] at h; cases h; exact .inl rfl
      · intro toks e h; rw [parse_stmt] at h; cases h; exact .inl rfl
      · intro toks e h; rw [parse_program] at h; cases h; exact .inl rfl
  | succ f ih =>
      obtain ⟨ihv, ihl, ihi, ihc, ihe, ihlp, iht, ihs, ihp⟩ := ih
      have loopZero : ∀ node toks e,
          parse_expr_loop 0 node toks = .error e → ParserErrShape e := by
        intro node toks e h
        rw [parse_expr_loop] at h
        cases h
        exact .inl rfl
      refine ⟨?_, ?_, ?_, ?_, ?_, ?_, ?_, ?_, ?_⟩
      · -- parse_value
        intro toks e h
        rw [parse_value] at h
        split at h
        · cases h
          exact .inr (.inr (.inr rfl))
        · split at h
          · split at h
            · exact absurd h (by simp)
            · rename_i e' h1
              cases h
              exact eatShape h1
          · split at h
            · exact ihl _ _ h
            · split at h
              · exact ihc _ _ h
              · cases h
                exact .inr (.inr (.inl ⟨_, rfl⟩))
      · -- parse_list
        intro toks e h
        rw [parse_list] at h
        split at h
        · rename_i e' h1
          cases h
          exact eatShape h1
        · rename_i t1 r1 h1
          split at h
          · rename_i e' h2
            cases h
            exact eatShape h2
          · rename_i t2 r2 h2
            split at h
            · rename_i e' h3
              cases h
              exact ihi _ _ h3
            · rename_i items r3 h3
              split at h
              · rename_i e' h4
                cases h
                exact eatShape h4
              · exact absurd h (by simp)
      · -- parse_list_items
        intro toks e h
        rw [parse_list_items] at h
        split at h
        · exact absurd h (by simp)
        · split at h
          · exact absurd h (by simp)
          · split at h
            · rename_i e' h1
              cases h
              exact ihv _ _ h1
            · rename_i v r h1
              split at h
              · rename_i e' h2
                cases h
                exact ihi _ _ h2
              · exact absurd h (by simp)
      · -- parse_const_expr
        intro toks e h
        rw [parse_const_expr] at h
        split at h
        · rename_i e' h1
          cases h
          exact eatShape h1
        · rename_i t1 r1 h1
          split at h
          · rename_i e' h2
            cases h
            exact eatShape h2
          · rename_i t2 r2 h2
            split at h
            · rename_i e' h3
              cases h
              exact ihe _ _ h3
            · rename_i x r3 h3
              split at h
              · rename_i e' h4
                cases h
                exact eatShape h4
              · exact absurd h (by simp)
      · -- parse_expr
        intro toks e h
        rw [parse_expr] at h
        split at h
        · rename_i e' h1
          cases h
          exact iht _ _ h1
        · rename_i node r h1
          exact ihlp _ _ _ h
      · -- parse_expr_loop
        intro node toks e h
        rw [parse_expr_loop] at h
        split at h
        · exact absurd h (by simp)
        · split at h
          · split at h
            · rename_i e' h1
              cases h
              exact eatShape h1
            · rename_i op r1 h1
              split at h
              · rename_i e' h2
                cases h
                exact iht _ _ h2
              · exact ihlp _ _ _ h
          · exact absurd h (by simp)
      · -- parse_term
        intro toks e h
        rw [parse_term] at h
        split at h
        · cases h
          exact .inr (.inr (.inr rfl))
        · split at h
          · split at h
            · rename_i e' h1
              cases h
              exact eatShape h1
            · rename_i t1 r1 h1
              split at h
              · rename_i e' h2
                cases h
                exact iht _ _ h2
              · exact absurd h (by simp)
          · split at h
            · split at h
              · rename_i e' h1
                cases h
                exact eatShape h1
              · exact absurd h (by simp)
            · split at h
              · split at h
                · rename_i e' h1
                  cases h
                  exact eatShape h1
                · exact absurd h (by simp)
              · split at h
                · split at h
                  · rename_i e' h1
                    cases h
                    exact eatShape h1
                  · rename_i t1 r1 h1
                    split at h
                    · rename_i e' h2
                      cases h
                      exact eatShape h2
                    · rename_i t2 r2 h2
                      split at h
                      · rename_i e' h3
                        cases h
                        exact ihe _ _ h3
                      · rename_i a r3 h3
                        split at h
                        · rename_i e' h4
                          cases h
                          exact eatShape h4
                        · rename_i t4 r4 h4
                          split at h
                          · rename_i e' h5
                            cases h
                            exact ihe _ _ h5
                          · rename_i b r5 h5
                            split at h
                            · rename_i e' h6
                              cases h
                              exact eatShape h6
                            · exact absurd h (by simp)
                · split at h
                  · split at h
                    · rename_i e' h1
                      cases h
                      exact eatShape h1
                    · rename_i t1 r1 h1
                      split at h
                      · rename_i e' h2
                        cases h
                        exact eatShape h2
                      · rename_i t2 r2 h2
                        split at h
                        · rename_i e' h3
                          cases h
                          exact ihe _ _ h3
                        · rename_i a r3 h3
                          split at h
                          · rename_i e' h4
                            cases h
                            exact eatShape h4
                          · exact absurd h (by simp)
                  · cases h
                    exact .inr (.inr (.inl ⟨_, rfl⟩))
      · -- parse_stmt
        intro toks e h
        rw [parse_stmt] at h
        split at h
        · rename_i e' h1
          cases h
          exact eatShape h1
        · rename_i t1 r1 h1
          split at h
          · rename_i e' h2
            cases h
            exact eatShape h2
          · rename_i t2 r2 h2
            split at h
            · rename_i e' h3
              cases h
              exact eatShape h3
            · rename_i t3 r3 h3
              split at h
              · rename_i e' h4
                cases h
                exact ihv _ _ h4
              · rename_i v r4 h4
                split at h
                · rename_i e' h5
                  cases h
                  exact eatShape h5
                · exact absurd h (by simp)
      · -- parse_program
        intro toks e h
        rw [parse_program] at h
        split at h
        · exact absurd h (by simp)
        · split at h
          · rename_i e' h1
            cases h
            exact ihs _ _ h1
          · rename_i s r h1
            split at h
            · rename_i e' h2
              cases h
              exact ihp _ _ h2
            · exact absurd h (by simp)

/-- The fuel supplied by `parse` is always sufficient: the fuel artifact
of the embedding is unreachable from the pipeline. -/
theorem parse_noFuel_unreachable (toks : List Token) :
    parse toks ≠ .error .noFuel :=
  (parse_suff (2 * toks.length + 2)).2.2.2.2.2.2.2.2 toks le_rfl

/-- Every failure of `Parser.parse` is an eat mismatch, an unexpected
token, or the `NoneType` attribute error. -/
theorem parse_error_cases {toks : List Token} {e : Err}
    (h : parse toks = .error e) :
    (∃ exp got, e = .syntaxExpected exp got) ∨
      (∃ t, e = .syntaxUnexpected t) ∨ e = .noneTypeAttr := by
  have := (parse_err_shape (2 * toks.length + 2)).2.2.2.2.2.2.2.2 toks e h
  rcases this with rfl | hrest
  · exact absurd h (parse_noFuel_unreachable toks)
  · exact hrest

theorem peekT_mem {toks : List Token} {tok : Token}
    (h : peekT toks = some tok) : tok ∈ toks := by
  match toks with
  | [] => exact absurd h (by simp [peekT])
  | t :: ts =>
      simp only [peekT, List.head?_cons, Option.some.injEq] at h
      subst h
      exact List.mem_cons_self ..

theorem noNL_mono {toks r : List Token} (hs : r <:+ toks)
    (H : ∀ t ∈ toks, '\x0a' ∉ t.value) : ∀ t ∈ r, '\x0a' ∉ t.value :=
  fun t ht => H t (hs.subset ht)

/-- Every name the parser puts into the AST is the value of some input
token; with `lex`-produced tokens (whose values have no line breaks, by
`lex_values_noNL`) all AST names are line-break-free. -/
theorem parse_namesNoNL : ∀ fuel : Nat,
    (∀ toks v rest, (∀ t ∈ toks, '\x0a' ∉ t.value) →
      parse_value fuel toks = .ok (v, rest) → valueNamesNoNL v) ∧
    (∀ toks v rest, (∀ t ∈ toks, '\x0a' ∉ t.value) →
      parse_list fuel toks = .ok (v, rest) → valueNamesNoNL v) ∧
    (∀ toks vs rest, (∀ t ∈ toks, '\x0a' ∉ t.value) →
      parse_list_items fuel toks = .ok (vs, rest) → itemsNamesNoNL vs) ∧
    (∀ toks v rest, (∀ t ∈ toks, '\x0a' ∉ t.value) →
      parse_const_expr fuel toks = .ok (v, rest) → valueNamesNoNL v) ∧
    (∀ toks x rest, (∀ t ∈ toks, '\x0a' ∉ t.value) →
      parse_expr fuel toks = .ok (x, rest) → exprNamesNoNL x) ∧
    (∀ node toks x rest, (∀ t ∈ toks, '\x0a' ∉ t.value) →
      exprNamesNoNL node →
      parse_expr_loop fuel node toks = .ok (x, rest) → exprNamesNoNL x) ∧
    (∀ toks x rest, (∀ t ∈ toks, '\x0a' ∉ t.value) →
      parse_term fuel toks = .ok (x, rest) → exprNamesNoNL x) ∧
    (∀ toks s rest, (∀ t ∈ toks, '\x0a' ∉ t.value) →
      parse_stmt fuel toks = .ok (s, rest) → stmtNamesNoNL s) ∧
    (∀ toks out, (∀ t ∈ toks, '\x0a' ∉ t.value) →
      parse_program fuel toks = .ok out → ∀ s ∈ out, stmtNamesNoNL s) := by
  intro fuel
  induction fuel with
  | zero =>
      refine ⟨?_, ?_, ?_, ?_, ?_, ?_, ?_, ?_, ?_⟩ <;> intros <;>
        simp_all [parse_value, parse_list, parse_list_items,
          parse_const_expr, parse_expr, parse_expr_loop, parse_term,
          parse_stmt, parse_program]
  | succ f ih =>
      obtain ⟨ihv, ihl, ihi, ihc, ihe, ihlp, iht, ihs, ihp⟩ := ih
      refine ⟨?_, ?_, ?_, ?_, ?_, ?_, ?_, ?_, ?_⟩
      · -- parse_value
        intro toks v rest H h
        rw [parse_value] at h
        split at h
        · exact absurd h (by simp)
        · split at h
          · split at h
            · rename_i t r heat
              simp only [Except.ok.injEq, Prod.mk.injEq] at h
              obtain ⟨rfl, rfl⟩ := h
              simp [valueNamesNoNL]
            · exact absurd h (by simp)
          · split at h
            · exact ihl _ _ _ H h
            · split at h
              · exact ihc _ _ _ H h
              · exact absurd h (by simp)
      · -- parse_list
        intro toks v rest H h
        rw [parse_list] at h
        split at h
        · exact absurd h (by simp)
        · rename_i t1 r1 h1
          split at h
          · exact absurd h (by simp)
          · rename_i t2 r2 h2
            split at h
            · exact absurd h (by simp)
            · rename_i items r3 h3
              split at h
              · exact absurd h (by simp)
              · rename_i t4 r4 h4
                simp only [Except.ok.injEq, Prod.mk.injEq] at h
                obtain ⟨rfl, rfl⟩ := h
                obtain ⟨rfl, -⟩ := eat_ok h1
                obtain ⟨rfl, -⟩ := eat_ok h2
                have H2 : ∀ t ∈ r2, '\x0a' ∉ t.value := by
                  intro t ht
                  exact H t (List.mem_cons_of_mem _ (List.mem_cons_of_mem _ ht))
                simp only [valueNamesNoNL]
                exact ihi _ _ _ H2 h3
      · -- parse_list_items
        intro toks vs rest H h
        rw [parse_list_items] at h
        split at h
        · simp only [Except.ok.injEq, Prod.mk.injEq] at h
          obtain ⟨rfl, -⟩ := h
          simp [itemsNamesNoNL]
        · split at h
          · simp only [Except.ok.injEq, Prod.mk.injEq] at h
            obtain ⟨rfl, -⟩ := h
            simp [itemsNamesNoNL]
          · split at h
            · exact absurd h (by simp)
            · rename_i v r h1
              split at h
              · exact absurd h (by simp)
              · rename_i vs' r2 h2
                simp only [Except.ok.injEq, Prod.mk.injEq] at h
                obtain ⟨rfl, -⟩ := h
                have hsuf := ((parse_consume f).1 _ _ _ h1).2
                simp only [itemsNamesNoNL]
                exact ⟨ihv _ _ _ H h1, ihi _ _ _ (noNL_mono hsuf H) h2⟩
      · -- parse_const_expr
        intro toks v rest H h
        rw [parse_const_expr] at h
        split at h
        · exact absurd h (by simp)
        · rename_i t1 r1 h1
          split at h
          · exact absurd h (by simp)
          · rename_i t2 r2 h2
            split at h
            · exact absurd h (by simp)
            · rename_i x r3 h3
              split at h
              · exact absurd h (by simp)
              · rename_i t4 r4 h4
                simp only [Except.ok.injEq, Prod.mk.injEq] at h
                obtain ⟨rfl, -⟩ := h
                obtain ⟨rfl, -⟩ := eat_ok h1
                obtain ⟨rfl, -⟩ := eat_ok h2
                have H2 : ∀ t ∈ r2, '\x0a' ∉ t.value := by
                  intro t ht
                  exact H t (List.mem_cons_of_mem _ (List.mem_cons_of_mem _ ht))
                simp only [valueNamesNoNL]
                exact ihe _ _ _ H2 h3
      · -- parse_expr
        intro toks x rest H h
        rw [parse_expr] at h
        split at h
        · exact absurd h (by simp)
        · rename_i node r h1
          have hsuf := ((parse_consume f).2.2.2.2.2.2.1 _ _ _ h1).2
          exact ihlp _ _ _ _ (noNL_mono hsuf H) (iht _ _ _ H h1) h
      · -- parse_expr_loop
        intro node toks x rest H hnode h
        rw [parse_expr_loop] at h
        split at h
        · simp only [Except.ok.injEq, Prod.mk.injEq] at h
          obtain ⟨rfl, -⟩ := h
          exact hnode
        · split at h
          · split at h
            · exact absurd h (by simp)
            · rename_i op r1 h1
              split at h
              · exact absurd h (by simp)
              · rename_i right r2 h2
                obtain ⟨rfl, -⟩ := eat_ok h1
                have H1 : ∀ t ∈ r1, '\x0a' ∉ t.value := by
                  intro t ht
                  exact H t (List.mem_cons_of_mem _ ht)
                have hright := iht _ _ _ H1 h2
                have hsuf := ((parse_consume f).2.2.2.2.2.2.1 _ _ _ h2).2
                refine ihlp _ _ _ _ (noNL_mono hsuf H1) ?_ h
                unfold mkBin
                split
                · exact ⟨hnode, hright⟩
                · exact ⟨hnode, hright⟩
          · simp only [Except.ok.injEq, Prod.mk.injEq] at h
            obtain ⟨rfl, -⟩ := h
            exact hnode
      · -- parse_term
        intro toks x rest H h
        rw [parse_term] at h
        split at h
        · exact absurd h (by simp)
        · rename_i tok hpk
          split at h
          · -- MINUS
            split at h
            · exact absurd h (by simp)
            · rename_i t1 r1 h1
              split at h
              · exact absurd h (by simp)
              · rename_i term r2 h2
                simp only [Except.ok.injEq, Prod.mk.injEq] at h
                obtain ⟨rfl, -⟩ := h
                obtain ⟨rfl, -⟩ := eat_ok h1
                have H1 : ∀ t ∈ r1, '\x0a' ∉ t.value := by
                  intro t ht
                  exact H t (List.mem_cons_of_mem _ ht)
                exact ⟨trivial, iht _ _ _ H1 h2⟩
          · split at h
            · -- NUMBER
              split at h
              · exact absurd h (by simp)
              · rename_i t1 r1 h1
                simp only [Except.ok.injEq, Prod.mk.injEq] at h
                obtain ⟨rfl, -⟩ := h
                trivial
            · split at h
              · -- IDENT
                split at h
                · exact absurd h (by simp)
                · rename_i t1 r1 h1
                  simp only [Except.ok.injEq, Prod.mk.injEq] at h
                  obtain ⟨rfl, -⟩ := h
                  exact H tok (peekT_mem hpk)
              · split at h
                · -- POW
                  split at h
                  · exact absurd h (by simp)
                  · rename_i t1 r1 h1
                    split at h
                    · exact absurd h (by simp)
                    · rename_i t2 r2 h2
                      split at h
                      · exact absurd h (by simp)
                      · rename_i a r3 h3
                        split at h
                        · exact absurd h (by simp)
                        · rename_i t4 r4 h4
                          split at h
                          · exact absurd h (by simp)
                          · rename_i b r5 h5
                            split at h
                            · exact absurd h (by simp)
                            · rename_i t6 r6 h6
                              simp only [Except.ok.injEq, Prod.mk.injEq] at h
                              obtain ⟨rfl, -⟩ := h
                              obtain ⟨rfl, -⟩ := eat_ok h1
                              obtain ⟨rfl, -⟩ := eat_ok h2
                              have H2 : ∀ t ∈ r2, '\x0a' ∉ t.value := by
                                intro t ht
                                exact H t (List.mem_cons_of_mem _
                                  (List.mem_cons_of_mem _ ht))
                              have ha := ihe _ _ _ H2 h3
                              have hsuf3 := ((parse_consume f).2.2.2.2.1 _ _ _ h3).2
                              obtain ⟨rfl, -⟩ := eat_ok h4
                              have H4 : ∀ t ∈ r4, '\x0a' ∉ t.value := by
                                intro t ht
                                exact noNL_mono hsuf3 H2 t (List.mem_cons_of_mem _ ht)
                              exact ⟨ha, ihe _ _ _ H4 h5⟩
                · split at h
                  · -- ABS
                    split at h
                    · exact absurd h (by simp)
                    · rename_i t1 r1 h1
                      split at h
                      · exact absurd h (by simp)
                      · rename_i t2 r2 h2
                        split at h
                        · exact absurd h (by simp)
                        · rename_i a r3 h3
                          split at h
                          · exact absurd h (by simp)
                          · rename_i t4 r4 h4
                            simp only [Except.ok.injEq, Prod.mk.injEq] at h
                            obtain ⟨rfl, -⟩ := h
                            obtain ⟨rfl, -⟩ := eat_ok h1
                            obtain ⟨rfl, -⟩ := eat_ok h2
                            have H2 : ∀ t ∈ r2, '\x0a' ∉ t.value := by
                              intro t ht
                              exact H t (List.mem_cons_of_mem _
                                (List.mem_cons_of_mem _ ht))
                            simp only [exprNamesNoNL]
                            exact ihe _ _ _ H2 h3
                  · exact absurd h (by simp)
      · -- parse_stmt
        intro toks s rest H h
        rw [parse_stmt] at h
        split at h
        · exact absurd h (by simp)
        · rename_i t1 r1 h1
          split at h
          · exact absurd h (by simp)
          · rename_i t2 r2 h2
            split at h
            · exact absurd h (by simp)
            · rename_i t3 r3 h3
              split at h
              · exact absurd h (by simp)
              · rename_i v r4 h4
                split at h
                · exact absurd h (by simp)
                · rename_i t5 r5 h5
                  simp only [Except.ok.injEq, Prod.mk.injEq] at h
                  obtain ⟨rfl, -⟩ := h
                  obtain ⟨rfl, -⟩ := eat_ok h1
                  obtain ⟨rfl, -⟩ := eat_ok h2
                  obtain ⟨rfl, -⟩ := eat_ok h3
                  have H3 : ∀ t ∈ r3, '\x0a' ∉ t.value := by
                    intro t ht
                    exact H t (List.mem_cons_of_mem _ (List.mem_cons_of_mem _
                      (List.mem_cons_of_mem _ ht)))
                  refine ⟨?_, ihv _ _ _ H3 h4⟩
                  exact H t2 (List.mem_cons_of_mem _ (List.mem_cons_self ..))
      · -- parse_program
        intro toks out H h
        rw [parse_program] at h
        split at h
        · simp only [Except.ok.injEq] at h
          subst h
          simp
        · split at h
          · exact absurd h (by simp)
          · rename_i s r h1
            split at h
            · exact absurd h (by simp)
            · rename_i ss h2
              simp only [Except.ok.injEq] at h
              subst h
              intro u hu
              rcases List.mem_cons.mp hu with rfl | hu
              · exact ihs _ _ _ H h1
              · have hsuf := ((parse_consume f).2.2.2.2.2.2.2 _ _ _ h1).2
                exact ihp _ _ (noNL_mono hsuf H) h2 u hu

/-! ## Rendering lemmas: no line break ever occurs inside an output line
or an error message -/

theorem toNat_ofNat_valid {m : Nat} (hv : m.isValidChar) :
    (Char.ofNat m).toNat = m := by
  unfold Char.ofNat
  rw [dif_pos hv]
  rfl

theorem digitChar_ne_nl {d : Nat} (hd : d < 10) : digitChar d ≠ '\x0a' := by
  interval_cases d <;> decide

theorem natToStrAux_noNL : ∀ (fuel n : Nat), '\x0a' ∉ natToStrAux fuel n := by
  intro fuel
  induction fuel with
  | zero => intro n; rw [natToStrAux]; simp
  | succ fuel ih =>
      intro n
      rw [natToStrAux]
      split
      · rename_i h10
        simp only [List.mem_singleton]
        intro hc
        exact digitChar_ne_nl h10 hc.symm
      · simp only [List.mem_append, List.mem_singleton]
        rintro (hmem | hc)
        · exact ih (n / 10) hmem
        · exact digitChar_ne_nl (Nat.mod_lt _ (by omega)) hc.symm

theorem natToStr_noNL (n : Nat) : '\x0a' ∉ natToStr n :=
  natToStrAux_noNL (n + 1) n

theorem intToStr_noNL (i : Int) : '\x0a' ∉ intToStr i := by
  unfold intToStr
  split
  · simp only [List.mem_cons]
    rintro (hc | hmem)
    · exact absurd hc (by decide)
    · exact natToStr_noNL _ hmem
  · exact natToStr_noNL _

theorem lowerC_ne_nl {c : Char} (hc : c ≠ '\x0a') : lowerC c ≠ '\x0a' := by
  unfold lowerC
  split
  · rename_i hAZ
    simp only [Bool.and_eq_true, decide_eq_true_eq] at hAZ
    intro heq
    have ha : 65 ≤ c.toNat := hAZ.1
    have hz : c.toNat ≤ 90 := hAZ.2
    have hv : (c.toNat + 32).isValidChar := by
      left
      omega
    have h2' := congrArg Char.toNat heq
    rw [toNat_ofNat_valid hv] at h2'
    have h10 : ('\x0a').toNat = 10 := rfl
    rw [h10] at h2'
    omega
  · exact hc

theorem pyLower_noNL {s : Str} (hs : '\x0a' ∉ s) : '\x0a' ∉ pyLower s := by
  unfold pyLower
  simp only [List.mem_map]
  rintro ⟨c, hcm, hceq⟩
  exact lowerC_ne_nl (fun h => hs (h ▸ hcm)) hceq

theorem not_mem_append {c : Char} {l r : Str} (hl : c ∉ l) (hr : c ∉ r) :
    c ∉ l ++ r :=
  fun hm => (List.mem_append.mp hm).elim hl hr

mutual

theorem pyStr_noNL : ∀ v : Value, '\x0a' ∉ pyStr v
  | .int n => by
      rw [pyStr]
      exact intToStr_noNL n
  | .list vs => by
      rw [pyStr]
      intro hm
      rcases List.mem_cons.mp hm with hc | hc
      · exact absurd hc (by decide)
      · exact not_mem_append (pyStrList_noNL vs) (by decide) hc
  | .float q => by
      rw [pyStr]
      split
      · exact not_mem_append (intToStr_noNL _) (by decide)
      · exact not_mem_append
          (not_mem_append (intToStr_noNL _) (by decide)) (natToStr_noNL _)

theorem pyStrList_noNL : ∀ vs : List Value, '\x0a' ∉ pyStrList vs
  | [] => by
      rw [pyStrList]
      simp
  | [v] => by
      rw [pyStrList]
      exact pyStr_noNL v
  | v :: v2 :: rest => by
      rw [pyStrList]
      · exact not_mem_append
          (not_mem_append (pyStr_noNL v) (by decide))
          (pyStrList_noNL (v2 :: rest))
      · simp

end

theorem entryLine_noNL {kv : Str × Value} (hk : '\x0a' ∉ kv.1) :
    '\x0a' ∉ entryLine kv := by
  unfold entryLine
  exact not_mem_append
    (not_mem_append (pyLower_noNL hk) (by decide)) (pyStr_noNL _)

/-! ## Line splitting -/

theorem splitNL_single {s : Str} (hs : '\x0a' ∉ s) : splitNL s = [s] := by
  induction s with
  | nil => rfl
  | cons c r ih =>
      have hcc : ¬(c = '\x0a') := fun hc =>
        hs (by rw [hc]; exact List.mem_cons_self ..)
      rw [splitNL, if_neg hcc, ih (fun hm => hs (List.mem_cons_of_mem _ hm))]

theorem splitNL_append {l : Str} (s : Str) (hl : '\x0a' ∉ l) :
    splitNL (l ++ '\x0a' :: s) = l :: splitNL s := by
  induction l with
  | nil => simp [splitNL]
  | cons c r ih =>
      have hcc : ¬(c = '\x0a') := fun hc =>
        hl (by rw [hc]; exact List.mem_cons_self ..)
      rw [List.cons_append, splitNL, if_neg hcc,
        ih (fun hm => hl (List.mem_cons_of_mem _ hm))]

theorem splitNL_joinNL : ∀ ls : List Str, ls ≠ [] →
    (∀ l ∈ ls, '\x0a' ∉ l) → splitNL (joinNL ls) = ls
  | [], h, _ => absurd rfl h
  | [l], _, H => by
      rw [joinNL]
      exact splitNL_single (H l (List.mem_cons_self ..))
  | l :: l2 :: rest, _, H => by
      rw [joinNL]
      · rw [splitNL_append _ (H l (List.mem_cons_self ..))]
        rw [splitNL_joinNL (l2 :: rest) (by simp)
          (fun x hx => H x (List.mem_cons_of_mem _ hx))]
      · simp

/-! ## Dict lemmas: Python's insertion-ordered `dict` -/

theorem dictGet_dictSet_self (n : Str) (v : Value) (d : Dict) :
    dictGet n (dictSet n v d) = some v := by
  induction d with
  | nil => simp [dictSet, dictGet]
  | cons kv rest ih =>
      obtain ⟨k, w⟩ := kv
      rw [dictSet]
      split
      · rename_i hk
        rw [dictGet, if_pos hk]
      · rename_i hk
        rw [dictGet, if_neg hk]
        exact ih

theorem dictGet_dictSet_other {m n : Str} (hmn : n ≠ m) (v : Value)
    (d : Dict) : dictGet m (dictSet n v d) = dictGet m d := by
  induction d with
  | nil => simp [dictSet, dictGet, hmn]
  | cons kv rest ih =>
      obtain ⟨k, w⟩ := kv
      rw [dictSet]
      split
      · rename_i hk
        subst hk
        rw [dictGet, dictGet, if_neg hmn, if_neg hmn]
      · rename_i hk
        rw [dictGet, dictGet]
        split
        · rfl
        · exact ih

theorem dictSet_keys (n : Str) (v : Value) (d : Dict) :
    (dictSet n v d).map Prod.fst =
      if n ∈ d.map Prod.fst then d.map Prod.fst
      else d.map Prod.fst ++ [n] := by
  induction d with
  | nil => simp [dictSet]
  | cons kv rest ih =>
      obtain ⟨k, w⟩ := kv
      rw [dictSet]
      split
      · rename_i hk
        subst hk
        simp only [List.map_cons]
        rw [if_pos (List.mem_cons_self ..)]
      · rename_i hk
        simp only [List.map_cons, List.cons_append]
        rw [ih]
        by_cases hmem : n ∈ rest.map Prod.fst
        · rw [if_pos hmem, if_pos (by simp [hmem])]
        · rw [if_neg hmem, if_neg ?_]
          simp only [List.mem_cons]
          rintro (hc | hc)
          · exact hk hc.symm
          · exact hmem hc

/-! ## Evaluation-loop lemmas -/

theorem run_stmts_append (xs ys : List Stmt) (d d' : Dict)
    (h : run_stmts xs d = .ok d') :
    run_stmts (xs ++ ys) d = run_stmts ys d' := by
  induction xs generalizing d with
  | nil =>
      rw [run_stmts] at h
      cases h
      simp
  | cons s rest ih =>
      rw [run_stmts] at h
      split at h
      · exact absurd h (by simp)
      · rename_i v heval
        rw [List.cons_append, run_stmts]
        simp only [heval]
        exact ih _ h

theorem run_stmts_keys (stmts : List Stmt) (d consts : Dict)
    (h : run_stmts stmts d = .ok consts) :
    consts.map Prod.fst =
      insertKeys (d.map Prod.fst) (stmts.map Stmt.name) := by
  induction stmts generalizing d with
  | nil =>
      rw [run_stmts] at h
      cases h
      simp [insertKeys]
  | cons s rest ih =>
      rw [run_stmts] at h
      split at h
      · exact absurd h (by simp)
      · rename_i v heval
        rw [ih _ h, dictSet_keys]
        rw [List.map_cons]
        simp [insertKeys]

theorem run_stmts_preserve (stmts : List Stmt) (d consts : Dict)
    (n : Str) (h : run_stmts stmts d = .ok consts)
    (hmem : n ∉ stmts.map Stmt.name) : dictGet n consts = dictGet n d := by
  induction stmts generalizing d with
  | nil =>
      rw [run_stmts] at h
      cases h
      rfl
  | cons s rest ih =>
      rw [run_stmts] at h
      split at h
      · exact absurd h (by simp)
      · rename_i v heval
        rw [ih _ h (fun hc => hmem (List.mem_cons_of_mem _ hc))]
        refine dictGet_dictSet_other ?_ v d
        intro hc
        refine hmem ?_
        rw [List.map_cons, hc]
        exact List.mem_cons_self ..

theorem insertKeys_nodup : ∀ (names ks : List Str),
    (ks ++ names).Nodup → insertKeys ks names = ks ++ names
  | [], ks, _ => by simp [insertKeys]
  | n :: rest, ks, h => by
      rw [insertKeys]
      have hparts := List.nodup_append.mp h
      have hn : n ∉ ks := fun hc =>
        hparts.2.2 hc (List.mem_cons_self ..)
      rw [if_neg hn]
      have hassoc : (ks ++ [n]) ++ rest = ks ++ n :: rest := by simp
      rw [insertKeys_nodup rest (ks ++ [n]) (by rw [hassoc]; exact h)]
      simp

/-! ## Evaluator error messages contain no line break -/

theorem addVal_err_noNL {a b : Value} {e : Err}
    (h : addVal a b = .error e) : '\x0a' ∉ e.render := by
  cases a <;> cases b <;> simp only [addVal] at h <;> cases h <;>
    (simp only [Value.typeName]; decide)

theorem subVal_err_noNL {a b : Value} {e : Err}
    (h : subVal a b = .error e) : '\x0a' ∉ e.render := by
  cases a <;> cases b <;> simp only [subVal] at h <;> cases h <;>
    (simp only [Value.typeName]; decide)

theorem ratPowInt_err {p : ℚ} {isInt : Bool} {b : Int} {e : Err}
    (h : ratPowInt p isInt b = .error e) : e = .zeroPowNegative := by
  unfold ratPowInt at h
  split at h
  · split at h <;> exact absurd h (by simp)
  · split at h
    · cases h
      rfl
    · exact absurd h (by simp)

theorem powVal_err_noNL {a b : Value} {e : Err}
    (h : powVal a b = .error e) : '\x0a' ∉ e.render := by
  cases a with
  | int n =>
      cases b with
      | int m =>
          simp only [powVal] at h
          rw [ratPowInt_err h]
          decide
      | float q =>
          simp only [powVal] at h
          split at h
          · rw [ratPowInt_err h]
            decide
          · exact absurd h (by simp)
      | list vs =>
          simp only [powVal] at h
          cases h
          simp only [Value.typeName]
          decide
  | float p =>
      cases b with
      | int m =>
          simp only [powVal] at h
          rw [ratPowInt_err h]
          decide
      | float q =>
          simp only [powVal] at h
          split at h
          · rw [ratPowInt_err h]
            decide
          · exact absurd h (by simp)
      | list vs =>
          simp only [powVal] at h
          cases h
          simp only [Value.typeName]
          decide
  | list vs =>
      cases b <;> (simp only [powVal] at h; cases h; simp only [Value.typeName]; decide)

theorem absVal_err_noNL {a : Value} {e : Err}
    (h : absVal a = .error e) : '\x0a' ∉ e.render := by
  cases a <;> simp only [absVal] at h <;> cases h <;> decide

theorem eval_expr_err_noNL : ∀ (a : ExprNode) (d : Dict) (e : Err),
    exprNamesNoNL a → eval_expr a d = .error e → '\x0a' ∉ e.render
  | .num n, d, e, _, h => by simp [eval_expr] at h
  | .var name, d, e, hn, h => by
      rw [eval_expr] at h
      split at h
      · cases h
        simp only [Err.render, List.mem_append]
        rintro (hmem | hmem)
        · exact absurd hmem (by decide)
        · exact hn hmem
      · exact absurd h (by simp)
  | .plus a b, d, e, hn, h => by
      rw [eval_expr] at h
      split at h
      · rename_i e' h1
        cases h
        exact eval_expr_err_noNL a d _ hn.1 h1
      · rename_i va h1
        split at h
        · rename_i e' h2
          cases h
          exact eval_expr_err_noNL b d _ hn.2 h2
        · exact addVal_err_noNL h
  | .minus a b, d, e, hn, h => by
      rw [eval_expr] at h
      split at h
      · rename_i e' h1
        cases h
        exact eval_expr_err_noNL a d _ hn.1 h1
      · rename_i va h1
        split at h
        · rename_i e' h2
          cases h
          exact eval_expr_err_noNL b d _ hn.2 h2
        · exact subVal_err_noNL h
  | .pow a b, d, e, hn, h => by
      rw [eval_expr] at h
      split at h
      · rename_i e' h1
        cases h
        exact eval_expr_err_noNL a d _ hn.1 h1
      · rename_i va h1
        split at h
        · rename_i e' h2
          cases h
          exact eval_expr_err_noNL b d _ hn.2 h2
        · exact powVal_err_noNL h
  | .abs a, d, e, hn, h => by
      rw [eval_expr] at h
      split at h
      · rename_i e' h1
        cases h
        exact eval_expr_err_noNL a d _ hn h1
      · exact absVal_err_noNL h

mutual

theorem eval_value_err_noNL : ∀ (v : ValueNode) (d : Dict) (e : Err),
    valueNamesNoNL v → eval_value v d = .error e → '\x0a' ∉ e.render
  | .number n, d, e, _, h => by simp [eval_value] at h
  | .list items, d, e, hn, h => by
      rw [eval_value] at h
      split at h
      · rename_i e' h1
        cases h
        exact eval_items_err_noNL items d _ hn h1
      · exact absurd h (by simp)
  | .const ex, d, e, hn, h => eval_expr_err_noNL ex d e hn h

theorem eval_items_err_noNL : ∀ (items : List ValueNode) (d : Dict)
    (e : Err), itemsNamesNoNL items → eval_items items d = .error e →
    '\x0a' ∉ e.render
  | [], d, e, _, h => by simp [eval_items] at h
  | v :: rest, d, e, hn, h => by
      rw [eval_items] at h
      split at h
      · rename_i e' h1
        cases h
        exact eval_value_err_noNL v d _ hn.1 h1
      · rename_i x h1
        split at h
        · rename_i e' h2
          cases h
          exact eval_items_err_noNL rest d _ hn.2 h2
        · exact absurd h (by simp)

end

theorem run_stmts_err_noNL : ∀ (stmts : List Stmt) (d : Dict) (e : Err),
    (∀ s ∈ stmts, stmtNamesNoNL s) → run_stmts stmts d = .error e →
    '\x0a' ∉ e.render
  | [], d, e, _, h => by simp [run_stmts] at h
  | s :: rest, d, e, H, h => by
      rw [run_stmts] at h
      split at h
      · rename_i e' h1
        cases h
        exact eval_value_err_noNL s.val d _
          (H s (List.mem_cons_self ..)).2 h1
      · rename_i v h1
        exact run_stmts_err_noNL rest _ _
          (fun u hu => H u (List.mem_cons_of_mem _ hu)) h

theorem tokTypeName_noNL (t : TokType) : '\x0a' ∉ t.name := by
  cases t <;> decide

theorem parser_err_render_noNL {e : Err}
    (hshape : (∃ exp got, e = .syntaxExpected exp got) ∨
      (∃ t, e = .syntaxUnexpected t) ∨ e = .noneTypeAttr) :
    '\x0a' ∉ e.render := by
  rcases hshape with ⟨exp, got, rfl⟩ | ⟨t, rfl⟩ | rfl
  · simp only [Err.render, List.mem_append]
    rintro (((hm | hm) | hm) | hm)
    · exact absurd hm (by decide)
    · exact tokTypeName_noNL _ hm
    · exact absurd hm (by decide)
    · cases got with
      | some t => exact tokTypeName_noNL t hm
      | none => exact absurd hm (by decide)
  · simp only [Err.render, List.mem_append]
    rintro (hm | hm)
    · exact absurd hm (by decide)
    · exact tokTypeName_noNL _ hm
  · decide

/-- Every error the pipeline can produce renders to a message without a
line break, so the `ERROR = "..."` artifact is a single line. -/
theorem pipeline_err_noNL {text : Str} {e : Err}
    (h : pipeline text = .error e) : '\x0a' ∉ e.render := by
  unfold pipeline at h
  split at h
  · rename_i e' hlex
    cases h
    obtain ⟨c, p, rfl, hws⟩ := lex_error_shape hlex
    simp only [Err.render, List.mem_append, List.mem_singleton]
    rintro (((hm | hm) | hm) | hm)
    · exact absurd hm (by decide)
    · subst hm
      simp [isWsC] at hws
    · exact absurd hm (by decide)
    · exact natToStr_noNL _ hm
  · rename_i tokens hlex
    split at h
    · rename_i e' hp
      cases h
      exact parser_err_render_noNL (parse_error_cases hp)
    · rename_i stmts hp
      split at h
      · rename_i e' hrun
        cases h
        refine run_stmts_err_noNL stmts [] _ ?_ hrun
        exact (parse_namesNoNL (2 * tokens.length + 2)).2.2.2.2.2.2.2.2
          tokens stmts (lex_values_noNL hlex) hp
      · exact absurd h (by simp)

/-! ## Single-step unfolding lemmas for the expression parser -/

theorem parse_expr_step_ok {f : Nat} {ts : List Token} {n : ExprNode}
    {r : List Token} (h : parse_term f ts = .ok (n, r)) :
    parse_expr (f + 1) ts = parse_expr_loop f n r := by
  rw [parse_expr, h]

theorem parse_expr_step_err {f : Nat} {ts : List Token} {e : Err}
    (h : parse_term f ts = .error e) : parse_expr (f + 1) ts = .error e := by
  rw [parse_expr, h]

theorem parse_term_num0_step (f : Nat) (ts : List Token) :
    parse_term (f + 1) (⟨.NUMBER, "0".data⟩ :: ts) = .ok (.num 0, ts) := rfl

theorem parse_term_minus_ok {f : Nat} {ts : List Token} {t : ExprNode}
    {r : List Token} (v : Str) (h : parse_term f ts = .ok (t, r)) :
    parse_term (f + 1) (⟨.MINUS, v⟩ :: ts) =
      .ok (.minus (.num 0) t, r) := by
  rw [parse_term]
  simp [peekT, eat, h]

theorem parse_term_minus_err {f : Nat} {ts : List Token} {e : Err}
    (v : Str) (h : parse_term f ts = .error e) :
    parse_term (f + 1) (⟨.MINUS, v⟩ :: ts) = .error e := by
  rw [parse_term]
  simp [peekT, eat, h]

theorem parse_expr_loop_minus_ok {f : Nat} {ts : List Token}
    {t : ExprNode} {r : List Token} (node : ExprNode) (v : Str)
    (h : parse_term f ts = .ok (t, r)) :
    parse_expr_loop (f + 1) node (⟨.MINUS, v⟩ :: ts) =
      parse_expr_loop f (.minus node t) r := by
  rw [parse_expr_loop]
  simp [peekT, eat, mkBin, h]

theorem parse_expr_loop_minus_err {f : Nat} {ts : List Token} {e : Err}
    (node : ExprNode) (v : Str) (h : parse_term f ts = .error e) :
    parse_expr_loop (f + 1) node (⟨.MINUS, v⟩ :: ts) = .error e := by
  rw [parse_expr_loop]
  simp [peekT, eat, h]

/-! ## Key-bookkeeping lemmas -/

theorem mem_insertKeys (a : Str) : ∀ (names ks : List Str),
    a ∈ insertKeys ks names ↔ a ∈ ks ∨ a ∈ names
  | [], ks => by simp [insertKeys]
  | n :: rest, ks => by
      rw [insertKeys]
      rw [mem_insertKeys a rest _]
      by_cases hmem : n ∈ ks
      · rw [if_pos hmem]
        constructor
        · rintro (h | h)
          · exact .inl h
          · exact .inr (List.mem_cons_of_mem _ h)
        · rintro (h | h)
          · exact .inl h
          · rcases List.mem_cons.mp h with rfl | h
            · exact .inl hmem
            · exact .inr h
      · rw [if_neg hmem]
        simp only [List.mem_append, List.mem_singleton, List.mem_cons]
        tauto

theorem insertKeys_nodup_out : ∀ (names ks : List Str), ks.Nodup →
    (insertKeys ks names).Nodup
  | [], ks, h => by simpa [insertKeys] using h
  | n :: rest, ks, h => by
      rw [insertKeys]
      refine insertKeys_nodup_out rest _ ?_
      by_cases hmem : n ∈ ks
      · rwa [if_pos hmem]
      · rw [if_neg hmem]
        simp [List.nodup_append, h, hmem]

/-! ## The source serializer agrees with the specification's wording -/

mutual

theorem specRender_eq_pyStr : ∀ v : Value, IntListOnly v = true →
    pyStr v = specRender v
  | .int n, _ => by rw [pyStr, specRender]
  | .float q, h => by rw [IntListOnly] at h; cases h
  | .list vs, h => by
      rw [pyStr, specRender]
      rw [specRenderList_eq_pyStrList vs (by rwa [IntListOnly] at h)]

theorem specRenderList_eq_pyStrList : ∀ vs : List Value,
    IntListOnlyList vs = true →
    pyStrList vs = joinSep ", ".data (specRenderList vs)
  | [], _ => rfl
  | [v], h => by
      rw [IntListOnlyList, Bool.and_eq_true] at h
      rw [pyStrList, specRenderList, specRenderList, joinSep]
      exact specRender_eq_pyStr v h.1
  | v :: v2 :: rest, h => by
      rw [IntListOnlyList, Bool.and_eq_true] at h
      rw [pyStrList]
      · rw [specRenderList, joinSep]
        · rw [specRender_eq_pyStr v h.1,
            specRenderList_eq_pyStrList (v2 :: rest) h.2]
        · simp [specRenderList]
      · simp

end

/-- On a duplicate-free list an element occurs exactly once. -/
theorem count_one_of_nodup_mem : ∀ (l : List Str) (a : Str),
    l.Nodup → a ∈ l → l.count a = 1 := by
  intro l a hnd hmem
  induction l with
  | nil => cases hmem
  | cons x xs ih =>
      rcases List.mem_cons.mp hmem with rfl | hmem2
      · have hnotin : a ∉ xs := (List.nodup_cons.mp hnd).1
        rw [List.count_cons_self, List.count_eq_zero.mpr hnotin]
      · have hne : a ≠ x :=
          fun heq => (List.nodup_cons.mp hnd).1 (heq ▸ hmem2)
        rw [List.count_cons_of_ne hne]
        exact ih (List.nodup_cons.mp hnd).2 hmem2

/-! ## Claims -/

/-- C9: the lexer's token sequence contains no whitespace and no comment
tokens; a comment spans from an asterisk up to but excluding the next
line break (consuming exactly that text and emitting nothing); and if no
token pattern matches at the current position the lexer fails
immediately with a lexical error naming the offending character and its
offset. -/
theorem C9_lexer_contract :
    (∀ text toks, lex text = .ok toks →
      ∀ t ∈ toks, t.type ≠ .WS ∧ t.type ≠ .COMMENT) ∧
    (∀ (fuel : Nat) (rest : Str) (pos : Nat),
      lexAux (fuel + 1) ('*' :: rest) pos =
      lexAux fuel (rest.dropWhile (fun c => c ≠ '\x0a'))
        (pos + (1 + (rest.takeWhile (fun c => c ≠ '\x0a')).length))) ∧
    (∀ (c : Char) (rest : Str) (fuel pos : Nat),
      firstMatch (c :: rest) = none →
      lexAux (fuel + 1) (c :: rest) pos = .error (.lexError c pos)) :=
  ⟨fun _ _ h => lex_no_ws_comment h, lexAux_comment,
   fun _ _ fuel pos h => lexAux_no_match fuel pos h⟩

/-- Witness for C9 at concrete inputs: lexing `"set A"` gives only
non-whitespace, non-comment tokens; a comment `*ab` before a line break
is skipped exactly up to the break; `$` matches no pattern and yields
the lexical error naming it and its offset. -/
theorem C9_lexer_contract_witness :
    (∀ t ∈ [Token.mk .SET "set".data, Token.mk .IDENT "A".data],
      t.type ≠ .WS ∧ t.type ≠ .COMMENT) ∧
    lexAux 6 ('*' :: "ab\x0aX".data) 0 = lexAux 5 "\x0aX".data 3 ∧
    lexAux 3 ('$' :: "x".data) 5 = .error (.lexError '$' 5) :=
  ⟨C9_lexer_contract.1 "set A".data _ rfl,
   C9_lexer_contract.2.1 5 "ab\x0aX".data 0,
   C9_lexer_contract.2.2 '$' "x".data 2 5 rfl⟩

/-- C2: whenever any pipeline stage fails, the produced output text is
exactly one line of the form `ERROR = "<message>"` where `<message>` is
the description of the first failure encountered, and no output from any
successfully evaluated prefix is emitted (the output is that single
line and nothing else). -/
theorem C2_error_output_single_line (text : Str) (e : Err)
    (h : pipeline text = .error e) :
    run text = "ERROR = \x22".data ++ e.render ++ "\x22".data ∧
    splitNL (run text) = [run text] := by
  have hrun : run text = "ERROR = \x22".data ++ e.render ++ "\x22".data := by
    unfold run
    rw [h]
  refine ⟨hrun, ?_⟩
  rw [hrun]
  exact splitNL_single
    (not_mem_append
      (not_mem_append (by decide) (pipeline_err_noNL h)) (by decide))

/-- Witness for C2: `set A = ^{ B };` fails with the semantic error for
the undefined `B`, and the whole output is that one `ERROR` line. -/
theorem C2_error_output_single_line_witness :
    pipeline "set A = ^\x7b B \x7d;".data =
      .error (.semanticUnknown "B".data) ∧
    run "set A = ^\x7b B \x7d;".data =
      "ERROR = \x22SemanticError: Unknown constant B\x22".data ∧
    splitNL (run "set A = ^\x7b B \x7d;".data) =
      [run "set A = ^\x7b B \x7d;".data] := by
  refine ⟨rfl, ?_, ?_⟩
  · exact (C2_error_output_single_line "set A = ^\x7b B \x7d;".data
      (.semanticUnknown "B".data) rfl).1
  · exact (C2_error_output_single_line "set A = ^\x7b B \x7d;".data
      (.semanticUnknown "B".data) rfl).2

/-- C8: the pipeline is a pure function of the input text, so running it
twice on the same text yields byte-identical output. -/
theorem C8_determinism (t1 t2 : Str) (h : t1 = t2) : run t1 = run t2 := by
  rw [h]

/-- Witness for C8 at a concrete input. -/
theorem C8_determinism_witness :
    run "set A = 5;".data = run "set A = 5;".data :=
  C8_determinism "set A = 5;".data "set A = 5;".data rfl

/-- C10: a `VarRef` to a previously defined list-valued constant
resolves to that list value (not an error), and `Add` on two operands
that both resolve to lists returns their concatenation. -/
theorem C10_list_lookup_and_concat (d : Dict) (n : Str)
    (l1 l2 : List Value) (a b : ExprNode)
    (hn : dictGet n d = some (.list l1))
    (ha : eval_expr a d = .ok (.list l1))
    (hb : eval_expr b d = .ok (.list l2)) :
    eval_expr (.var n) d = .ok (.list l1) ∧
    eval_expr (.plus a b) d = .ok (.list (l1 ++ l2)) := by
  constructor
  · rw [eval_expr, hn]
  · rw [eval_expr]
    simp only [ha, hb]
    rw [addVal]

/-- Witness for C10: with `A = [1]` in the table, `A` resolves to the
list and `A + A` concatenates. -/
theorem C10_list_lookup_and_concat_witness :
    eval_expr (.var "A".data) [("A".data, .list [.int 1])] =
      .ok (.list [.int 1]) ∧
    eval_expr (.plus (.var "A".data) (.var "A".data))
      [("A".data, .list [.int 1])] = .ok (.list [.int 1, .int 1]) :=
  C10_list_lookup_and_concat [("A".data, .list [.int 1])] "A".data
    [.int 1] [.int 1] (.var "A".data) (.var "A".data) rfl rfl rfl

/-- Counterexample to C3 as stated: evaluating `pow(2, 0 - 1)` — both
operands resolving to integers, with a negative exponent — does not fail
with a semantic error; it succeeds and produces a Python float
(`2 ** -1 == 0.5`), a non-integer value. -/
theorem C3_counterexample :
    eval_expr (.pow (.num 2) (.minus (.num 0) (.num 1))) [] =
      .ok (.float (1 / 2)) := by
  have hstep : eval_expr (.pow (.num 2) (.minus (.num 0) (.num 1))) [] =
      ratPowInt ((2 : Int) : ℚ) true ((0 : Int) - 1) := by rfl
  rw [hstep]
  unfold ratPowInt
  rw [if_neg (by omega), if_neg (by norm_num)]
  have hv : ((2 : Int) : ℚ) ^ ((0 : Int) - 1) = 1 / 2 := by
    rw [show ((0 : Int) - 1) = -(1 : Int) from rfl]
    rw [zpow_neg, zpow_one]
    norm_num
  rw [hv]

/-- C3 (amended): for `Pow(a, b)` with integer operands, a nonnegative
exponent gives the exact integer power, with no fixed-width overflow;
a negative exponent does not raise a semantic error: with a zero base it
raises `ZeroDivisionError`, and otherwise it succeeds with the float
value `a ^ b` (exact rational in this model). -/
theorem C3_pow_amended (d : Dict) (a b : ExprNode) (va vb : Int)
    (ha : eval_expr a d = .ok (.int va))
    (hb : eval_expr b d = .ok (.int vb)) :
    (0 ≤ vb → eval_expr (.pow a b) d = .ok (.int (va ^ vb.toNat))) ∧
    (vb < 0 → va = 0 →
      eval_expr (.pow a b) d = .error .zeroPowNegative) ∧
    (vb < 0 → va ≠ 0 →
      eval_expr (.pow a b) d = .ok (.float ((va : ℚ) ^ vb))) := by
  have hstep : eval_expr (.pow a b) d = powVal (.int va) (.int vb) := by
    rw [eval_expr]
    simp only [ha, hb]
  refine ⟨?_, ?_, ?_⟩
  · intro h0
    rw [hstep]
    simp only [powVal, ratPowInt, if_pos h0, if_pos rfl]
    simp
  · intro hneg h0
    rw [hstep]
    subst h0
    simp only [powVal, ratPowInt]
    rw [if_neg (by omega), if_pos (by norm_num)]
  · intro hneg h0
    rw [hstep]
    simp only [powVal, ratPowInt]
    rw [if_neg (by omega), if_neg (by exact_mod_cast h0)]

/-- Witness for C3 (amended): `pow(2, 10) = 1024` exactly;
`pow(0, 0-1)` raises `ZeroDivisionError`; `pow(2, 0-1)` succeeds with a
float. -/
theorem C3_pow_amended_witness :
    eval_expr (.pow (.num 2) (.num 10)) [] = .ok (.int 1024) ∧
    eval_expr (.pow (.num 0) (.minus (.num 0) (.num 1))) [] =
      .error .zeroPowNegative ∧
    eval_expr (.pow (.num 2) (.minus (.num 0) (.num 1))) [] =
      .ok (.float ((2 : ℚ) ^ (-1 : Int))) := by
  refine ⟨?_, ?_, ?_⟩
  · exact (C3_pow_amended [] (.num 2) (.num 10) 2 10 rfl rfl).1 (by omega)
  · exact (C3_pow_amended [] (.num 0) (.minus (.num 0) (.num 1)) 0 (-1)
      rfl (by rfl)).2.1 (by omega) rfl
  · exact (C3_pow_amended [] (.num 2) (.minus (.num 0) (.num 1)) 2 (-1)
      rfl (by rfl)).2.2 (by omega) (by omega)

/-- C7: for every token sequence, parsing an expression that starts with
a minus sign produces exactly the same result — the same AST and the
same leftover tokens, or the same error — as parsing the same sequence
with a literal `0` inserted in front: the leading unary minus is
desugared into `0 - term`. -/
theorem C7_unary_minus_desugar (ts : List Token) :
    parseExprTop (⟨.MINUS, "-".data⟩ :: ts) =
      parseExprTop (⟨.NUMBER, "0".data⟩ :: ⟨.MINUS, "-".data⟩ :: ts) := by
  unfold parseExprTop
  simp only [List.length_cons]
  have e1 : 2 * (ts.length + 1) + 4 = (2 * ts.length + 4) + 1 + 1 := by
    omega
  have e2 : 2 * (ts.length + 2) + 4 = (2 * ts.length + 6) + 1 + 1 := by
    omega
  rw [e1, e2]
  have hne : parse_term (2 * ts.length + 3) ts ≠ .error .noFuel :=
    (parse_suff (2 * ts.length + 3)).2.2.2.2.2.2.1 ts (by omega)
  cases hR : parse_term (2 * ts.length + 3) ts with
  | error e =>
      rw [hR] at hne
      have h4 : parse_term (2 * ts.length + 4) ts = .error e :=
        parse_term_mono_le (by omega) hR hne
      have h6 : parse_term (2 * ts.length + 6) ts = .error e :=
        parse_term_mono_le (by omega) hR hne
      rw [parse_expr_step_err (parse_term_minus_err _ h4)]
      rw [parse_expr_step_ok (parse_term_num0_step _ _)]
      rw [parse_expr_loop_minus_err _ _ h6]
  | ok p =>
      obtain ⟨t, r⟩ := p
      have h4 : parse_term (2 * ts.length + 4) ts = .ok (t, r) :=
        parse_term_mono_le (by omega) hR (by simp)
      have h6 : parse_term (2 * ts.length + 6) ts = .ok (t, r) :=
        parse_term_mono_le (by omega) hR (by simp)
      rw [parse_expr_step_ok (parse_term_minus_ok _ h4)]
      rw [parse_expr_step_ok (parse_term_num0_step _ _)]
      rw [parse_expr_loop_minus_ok _ _ h6]
      have hcons := ((parse_consume (2 * ts.length + 3)).2.2.2.2.2.2.1
        _ _ _ hR).1
      have hlpne : parse_expr_loop ((2 * ts.length + 4) + 1)
          (.minus (.num 0) t) r ≠ .error .noFuel :=
        (parse_suff ((2 * ts.length + 4) + 1)).2.2.2.2.2.1 _ r (by omega)
      exact (parse_expr_loop_mono_le (by omega) rfl hlpne).symm

/-- Counterexample to C4 as stated: on the token sequence of `set A =`
(exhausted just where `parse_value` chooses among its alternatives), the
parser fails not with a syntax error naming an expected kind or end of
input, but with Python's `AttributeError` from reading `tok.type` off
`None`; the pipeline turns it into
`ERROR = "'NoneType' object has no attribute 'type'"`. -/
theorem C4_counterexample :
    parse [⟨.SET, "set".data⟩, ⟨.IDENT, "A".data⟩, ⟨.EQUAL, "=".data⟩] =
      .error .noneTypeAttr ∧
    run "set A =".data =
      "ERROR = \x22\x27NoneType\x27 object has no attribute \x27type\x27\x22".data :=
  ⟨rfl, rfl⟩

/-- C4 (amended): every parsing failure is one of exactly three shapes:
a syntax error from `eat` naming the expected token kind and the actual
kind found (or `EOF` when the sequence is exhausted); a syntax error
naming only the unexpected token found while choosing among the
alternatives of `Value` or `Term`; or — when the alternatives of `Value`
or `Term` are examined at end of input — the `NoneType` attribute
error, which is not a syntax error. -/
theorem C4_parse_failures_amended (toks : List Token) (e : Err)
    (h : parse toks = .error e) :
    (∃ exp got, e = .syntaxExpected exp got) ∨
      (∃ t, e = .syntaxUnexpected t) ∨ e = .noneTypeAttr :=
  parse_error_cases h

/-- Witness for C4 (amended): the sequence `set` alone fails in `eat`
expecting `IDENT` at end of input. -/
theorem C4_parse_failures_amended_witness :
    (∃ exp got,
        (Err.syntaxExpected .IDENT none) = .syntaxExpected exp got) ∨
      (∃ t, (Err.syntaxExpected .IDENT none) = .syntaxUnexpected t) ∨
      (Err.syntaxExpected .IDENT none) = .noneTypeAttr :=
  C4_parse_failures_amended [⟨.SET, "set".data⟩] _ rfl

/-- C6: for a final constant table of integers and (nested) lists, the
serializer emits one line per entry of the form
`<lowercased-name> = <value>` — where an integer renders in base 10 and
a sequence renders as a bracketed, comma-and-space-separated list of the
same rendering applied recursively (`[]` when empty, exactly as the
specification words it: `specRender`) — joined by single line breaks
with no trailing line break, in declaration order of the table. -/
theorem C6_serializer_format (consts : Dict)
    (hvals : ∀ kv ∈ consts, IntListOnly kv.2 = true)
    (hkeys : ∀ kv ∈ consts, '\x0a' ∉ kv.1) :
    to_toml consts = joinNL (consts.map fun kv =>
      pyLower kv.1 ++ " = ".data ++ specRender kv.2) ∧
    (consts ≠ [] → splitNL (to_toml consts) = consts.map fun kv =>
      pyLower kv.1 ++ " = ".data ++ specRender kv.2) := by
  have hmap : consts.map entryLine = consts.map fun kv =>
      pyLower kv.1 ++ " = ".data ++ specRender kv.2 := by
    refine List.map_congr_left ?_
    intro kv hkv
    unfold entryLine
    rw [specRender_eq_pyStr kv.2 (hvals kv hkv)]
  have h1 : to_toml consts = joinNL (consts.map fun kv =>
      pyLower kv.1 ++ " = ".data ++ specRender kv.2) := by
    unfold to_toml
    rw [hmap]
  refine ⟨h1, ?_⟩
  intro hne
  rw [h1, splitNL_joinNL]
  · cases consts with
    | nil => exact absurd rfl hne
    | cons kv rest => simp
  · intro l hl
    simp only [List.mem_map] at hl
    obtain ⟨kv, hkv, rfl⟩ := hl
    rw [← specRender_eq_pyStr kv.2 (hvals kv hkv)]
    exact entryLine_noNL (hkeys kv hkv)

/-- Witness for C6 on a concrete table with an integer, a flat list and
an empty list. -/
theorem C6_serializer_format_witness :
    to_toml [("A".data, .int 5),
      ("B".data, .list [.int 1, .int 2, .int 3]),
      ("C".data, .list [])] =
      "a = 5\x0ab = [1, 2, 3]\x0ac = []".data ∧
    splitNL (to_toml [("A".data, .int 5),
      ("B".data, .list [.int 1, .int 2, .int 3]),
      ("C".data, .list [])]) =
      ["a = 5".data, "b = [1, 2, 3]".data, "c = []".data] := by
  have h := C6_serializer_format [("A".data, .int 5),
    ("B".data, .list [.int 1, .int 2, .int 3]),
    ("C".data, .list [])] (by decide) (by decide)
  exact ⟨h.1, h.2 (by simp)⟩

/-- C5: when a program declares the same constant name twice (each value
resolvable against the table built so far), evaluation succeeds, the
later value overwrites the earlier table entry, and the final table
shows the name exactly once, bound to the later value, at the first
declaration's insertion position relative to the other constants
(`insertKeys` keeps an existing key's position). -/
theorem C5_redeclaration_overwrites (pre mid post : List Stmt) (n : Str)
    (v1 v2 : ValueNode) (d0 d1 consts : Dict) (x1 x2 : Value)
    (hpre : run_stmts pre [] = .ok d0)
    (hx1 : eval_value v1 d0 = .ok x1)
    (hmid : run_stmts mid (dictSet n x1 d0) = .ok d1)
    (hx2 : eval_value v2 d1 = .ok x2)
    (hpost : run_stmts post (dictSet n x2 d1) = .ok consts)
    (hnpost : n ∉ post.map Stmt.name) :
    run_stmts (pre ++ ⟨n, v1⟩ :: mid ++ ⟨n, v2⟩ :: post) [] = .ok consts ∧
    dictGet n consts = some x2 ∧
    consts.map Prod.fst = insertKeys []
      ((pre ++ ⟨n, v1⟩ :: mid ++ ⟨n, v2⟩ :: post).map Stmt.name) ∧
    (consts.map Prod.fst).count n = 1 := by
  have hstep1 : run_stmts (⟨n, v1⟩ :: mid) d0 = .ok d1 := by
    rw [run_stmts]
    simp only [hx1]
    exact hmid
  have hrun : run_stmts (pre ++ ⟨n, v1⟩ :: mid ++ ⟨n, v2⟩ :: post) [] =
      .ok consts := by
    rw [List.append_assoc]
    rw [run_stmts_append pre _ _ _ hpre]
    rw [run_stmts_append (⟨n, v1⟩ :: mid) _ _ _ hstep1]
    rw [run_stmts]
    simp only [hx2]
    exact hpost
  have hget : dictGet n consts = some x2 := by
    rw [run_stmts_preserve post _ _ n hpost hnpost]
    exact dictGet_dictSet_self n x2 d1
  have hkeys := run_stmts_keys _ _ _ hrun
  refine ⟨hrun, hget, by simpa using hkeys, ?_⟩
  have hnd : (consts.map Prod.fst).Nodup := by
    rw [hkeys]
    exact insertKeys_nodup_out _ _ (by simp)
  have hmem : n ∈ consts.map Prod.fst := by
    rw [hkeys]
    rw [mem_insertKeys]
    refine .inr ?_
    simp
  exact count_one_of_nodup_mem _ n hnd hmem

/-- Witness for C5: `set B = 7; set A = 1; set C = 2; set A = 3; set D = 4;`
ends with `A` bound to `3`, listed once, still in second position. -/
theorem C5_redeclaration_overwrites_witness :
    run_stmts [⟨"B".data, .number 7⟩, ⟨"A".data, .number 1⟩,
        ⟨"C".data, .number 2⟩, ⟨"A".data, .number 3⟩,
        ⟨"D".data, .number 4⟩] [] =
      .ok [("B".data, .int 7), ("A".data, .int 3), ("C".data, .int 2),
        ("D".data, .int 4)] ∧
    dictGet "A".data [("B".data, .int 7), ("A".data, .int 3),
      ("C".data, .int 2), ("D".data, .int 4)] = some (.int 3) ∧
    (([("B".data, .int 7), ("A".data, .int 3), ("C".data, .int 2),
      ("D".data, .int 4)] : Dict).map Prod.fst).count "A".data = 1 := by
  have h := C5_redeclaration_overwrites [⟨"B".data, .number 7⟩]
    [⟨"C".data, .number 2⟩] [⟨"D".data, .number 4⟩] "A".data
    (.number 1) (.number 3) [("B".data, .int 7)]
    [("B".data, .int 7), ("A".data, .int 1), ("C".data, .int 2)]
    [("B".data, .int 7), ("A".data, .int 3), ("C".data, .int 2),
      ("D".data, .int 4)]
    (.int 1) (.int 3) rfl rfl rfl rfl rfl (by decide)
  exact ⟨h.1, h.2.1, h.2.2.2⟩

/-- Counterexample to C1 as stated: `set A = 1;set A = 2;` is a valid
program (two statements, no `VarRef` at all), yet the output is the
single line `a = 2` — one line per distinct name, not one line per
statement. -/
theorem C1_counterexample :
    lex "set A = 1;set A = 2;".data = .ok
      [⟨.SET, "set".data⟩, ⟨.IDENT, "A".data⟩, ⟨.EQUAL, "=".data⟩,
       ⟨.NUMBER, "1".data⟩, ⟨.SEMICOLON, ";".data⟩,
       ⟨.SET, "set".data⟩, ⟨.IDENT, "A".data⟩, ⟨.EQUAL, "=".data⟩,
       ⟨.NUMBER, "2".data⟩, ⟨.SEMICOLON, ";".data⟩] ∧
    parse
      [⟨.SET, "set".data⟩, ⟨.IDENT, "A".data⟩, ⟨.EQUAL, "=".data⟩,
       ⟨.NUMBER, "1".data⟩, ⟨.SEMICOLON, ";".data⟩,
       ⟨.SET, "set".data⟩, ⟨.IDENT, "A".data⟩, ⟨.EQUAL, "=".data⟩,
       ⟨.NUMBER, "2".data⟩, ⟨.SEMICOLON, ";".data⟩] =
      .ok [⟨"A".data, .number 1⟩, ⟨"A".data, .number 2⟩] ∧
    run "set A = 1;set A = 2;".data = "a = 2".data ∧
    splitNL (run "set A = 1;set A = 2;".data) = ["a = 2".data] :=
  ⟨rfl, rfl, rfl, rfl⟩

/-- C1 (amended): for every valid program whose statements all evaluate
successfully and whose declared names are pairwise distinct, the full
pipeline succeeds and the output text contains exactly one line per
statement, in declaration order (the table has one entry per statement,
in order, and the output splits at line breaks into exactly those
entries' lines). -/
theorem C1_success_one_line_per_stmt (text : Str) (toks : List Token)
    (stmts : List Stmt) (consts : Dict)
    (hl : lex text = .ok toks) (hp : parse toks = .ok stmts)
    (hnd : (stmts.map Stmt.name).Nodup)
    (he : run_stmts stmts [] = .ok consts) :
    pipeline text = .ok (to_toml consts) ∧
    consts.map Prod.fst = stmts.map Stmt.name ∧
    run text = joinNL (consts.map entryLine) ∧
    (stmts = [] → run text = []) ∧
    (stmts ≠ [] → splitNL (run text) = consts.map entryLine ∧
      (consts.map entryLine).length = stmts.length) := by
  have hpipe : pipeline text = .ok (to_toml consts) := by
    unfold pipeline
    simp only [hl, hp, he]
  have hkeys : consts.map Prod.fst = stmts.map Stmt.name := by
    rw [run_stmts_keys _ _ _ he]
    simpa using insertKeys_nodup (stmts.map Stmt.name) [] (by simpa using hnd)
  have hrun : run text = joinNL (consts.map entryLine) := by
    unfold run
    rw [hpipe]
    rfl
  have hnames : ∀ s ∈ stmts, stmtNamesNoNL s :=
    (parse_namesNoNL (2 * toks.length + 2)).2.2.2.2.2.2.2.2
      toks stmts (lex_values_noNL hl) hp
  refine ⟨hpipe, hkeys, hrun, ?_, ?_⟩
  · intro hempty
    subst hempty
    rw [run_stmts] at he
    cases he
    rw [hrun]
    rfl
  · intro hne
    have hcne : consts ≠ [] := by
      intro hc
      subst hc
      simp only [List.map_nil] at hkeys
      exact hne (by simpa using hkeys.symm)
    have hlines : ∀ l ∈ consts.map entryLine, '\x0a' ∉ l := by
      intro l hl'
      simp only [List.mem_map] at hl'
      obtain ⟨kv, hkv, rfl⟩ := hl'
      refine entryLine_noNL ?_
      have : kv.1 ∈ consts.map Prod.fst := List.mem_map_of_mem _ hkv
      rw [hkeys] at this
      simp only [List.mem_map] at this
      obtain ⟨s, hs, hkeq⟩ := this
      rw [← hkeq]
      exact (hnames s hs).1
    constructor
    · rw [hrun]
      exact splitNL_joinNL _ (by simpa using hcne) hlines
    · rw [List.length_map]
      have := congrArg List.length hkeys
      simpa using this

/-- Witness for C1 (amended): `set A = 5;set B = 6;` produces exactly
the two lines `a = 5` and `b = 6`, in order. -/
theorem C1_success_one_line_per_stmt_witness :
    pipeline "set A = 5;set B = 6;".data = .ok "a = 5\x0ab = 6".data ∧
    splitNL (run "set A = 5;set B = 6;".data) =
      ["a = 5".data, "b = 6".data] := by
  have h := C1_success_one_line_per_stmt "set A = 5;set B = 6;".data
    [⟨.SET, "set".data⟩, ⟨.IDENT, "A".data⟩, ⟨.EQUAL, "=".data⟩,
     ⟨.NUMBER, "5".data⟩, ⟨.SEMICOLON, ";".data⟩,
     ⟨.SET, "set".data⟩, ⟨.IDENT, "B".data⟩, ⟨.EQUAL, "=".data⟩,
     ⟨.NUMBER, "6".data⟩, ⟨.SEMICOLON, ";".data⟩]
    [⟨"A".data, .number 5⟩, ⟨"B".data, .number 6⟩]
    [("A".data, .int 5), ("B".data, .int 6)]
    rfl rfl (by decide) rfl
  exact ⟨h.1, (h.2.2.2.2 (by simp)).1⟩

end Translator
